import Mathlib

/-!
Verification development for the arke-organizer-service repository.

The TypeScript sources are shallowly embedded:
* JS strings are Lean `String`s (lists of characters); `text.length` is the
  character count, `text.slice(0, n)` is `List.take n` on the character list.
* JS floating-point arithmetic on token counts is modelled by exact rational
  arithmetic (`ℚ`); a spec phrase such as "within floating rounding error"
  becomes exact equality in this model.  Division by zero in `ℚ` yields `0`;
  every theorem below keeps its divisors nonzero, where the JS code and the
  model therefore agree.
* `Math.max(0, a - b)` on natural numbers is truncated subtraction.
* Fallible TypeScript code (functions that `throw`) returns `Except String`.
-/

namespace ArkeOrganizer

/-! ## Token utilities — src/src/utils/token-utils.ts -/

/-- Embeds `estimateTokens`: `Math.ceil(text.length / 4)`. -/
def estimateTokens (text : String) : Nat :=
  (text.length + 3) / 4

/-- The literal marker string appended on truncation: `'\n... [truncated]'`. -/
def truncationMarker : String := "\n... [truncated]"

/-- JS `String.prototype.endsWith`. -/
def strEndsWith (s suf : String) : Bool :=
  suf.toList.isSuffixOf s.toList

/-- Embeds `truncateToTokenBudget`.  The budget is a JS number (prompts.ts
passes fractional progressive-tax allocations), modelled by `ℚ`.
`Math.max(0, tokenBudget - markerTokens)` is `max 0 _` on `ℚ`;
`text.slice(0, maxChars)` with a possibly fractional `maxChars ≥ 0`
truncates the bound toward zero, i.e. takes `⌊maxChars⌋.toNat` characters. -/
def truncateToTokenBudget (text : String) (tokenBudget : ℚ) : String :=
  let estimatedTokens := estimateTokens text
  if (estimatedTokens : ℚ) ≤ tokenBudget then
    text
  else
    let markerTokens := estimateTokens truncationMarker
    let availableTokens := max 0 (tokenBudget - (markerTokens : ℚ))
    let maxChars := availableTokens * 4
    String.mk (text.toList.take ⌊maxChars⌋.toNat) ++ truncationMarker

theorem truncationMarker_length : truncationMarker.length = 16 := by decide

theorem estimateTokens_truncationMarker : estimateTokens truncationMarker = 4 := by
  decide

/-- Value of `truncateToTokenBudget` in the truncating branch. -/
theorem truncateToTokenBudget_eq_of_gt (text : String) (tokenBudget : ℚ)
    (h : ¬ ((estimateTokens text : ℚ) ≤ tokenBudget)) :
    truncateToTokenBudget text tokenBudget
      = String.mk (text.toList.take ⌊max 0 (tokenBudget - 4) * 4⌋.toNat)
          ++ truncationMarker := by
  unfold truncateToTokenBudget
  simp only [h, if_false, estimateTokens_truncationMarker]
  norm_num

/-- Length of the truncated string in the truncating branch. -/
theorem truncateToTokenBudget_length_of_gt (text : String) (tokenBudget : ℚ)
    (h : ¬ ((estimateTokens text : ℚ) ≤ tokenBudget)) :
    (truncateToTokenBudget text tokenBudget).length
      = min ⌊max 0 (tokenBudget - 4) * 4⌋.toNat text.length + 16 := by
  rw [truncateToTokenBudget_eq_of_gt text tokenBudget h,
    String.length_append, String.length_mk, List.length_take,
    truncationMarker_length]
  rfl

/-- C4 counterexample: with budget `0` and the marker itself as input,
`truncateToTokenBudget` returns the input unchanged although its estimate is
`4 > 0`, so both halves of the claimed contract fail: the estimate of the
truncated text exceeds the budget, and `truncate t b = t` holds although
`estimateTokens t ≤ b` does not. -/
theorem truncateToTokenBudget_claim_cex :
    truncateToTokenBudget truncationMarker 0 = truncationMarker ∧
    ¬ ((estimateTokens (truncateToTokenBudget truncationMarker 0) : ℚ) ≤ 0) ∧
    ¬ ((estimateTokens truncationMarker : ℚ) ≤ 0) := by
  have hne : ¬ ((estimateTokens truncationMarker : ℚ) ≤ 0) := by
    rw [estimateTokens_truncationMarker]; norm_num
  have hval := truncateToTokenBudget_eq_of_gt truncationMarker 0 hne
  have hK : ⌊max 0 ((0 : ℚ) - 4) * 4⌋.toNat = 0 := by
    have hm : max 0 ((0 : ℚ) - 4) = 0 := by
      apply max_eq_left; norm_num
    rw [hm]; norm_num
  rw [hK, List.take_zero] at hval
  have hmv : truncateToTokenBudget truncationMarker 0 = truncationMarker := by
    rw [hval]; rfl
  exact ⟨hmv, by rw [hmv]; exact hne, hne⟩

/-- C4 (amended): for every text and every budget `b ≥ 0` (possibly
fractional), the estimate of the truncated text is at most `max ⌈b⌉ 4`
(with `4 = estimateTokens truncationMarker`; for fractional `b ≥ 4` the
estimate may exceed `b` itself but never `⌈b⌉`); and
`truncateToTokenBudget t b = t` holds iff `estimateTokens t ≤ b` or `t`
ends with the truncation marker and has exactly
`⌊max 0 (b − 4) · 4⌋ + 16` characters — the fixed points of the truncating
branch. -/
theorem truncateToTokenBudget_estimate_le_and_eq_self_iff
    (t : String) (b : ℚ) (hb : 0 ≤ b) :
    ((estimateTokens (truncateToTokenBudget t b) : ℤ)
      ≤ max ⌈b⌉ (estimateTokens truncationMarker : ℤ)) ∧
    (truncateToTokenBudget t b = t ↔
      ((estimateTokens t : ℚ) ≤ b ∨
        (strEndsWith t truncationMarker = true ∧
          t.length = ⌊max 0 (b - 4) * 4⌋.toNat + 16))) := by
  rw [estimateTokens_truncationMarker]
  have hmax4 : (4 : ℤ) ≤ max ⌈b⌉ 4 := le_max_right _ _
  by_cases h : (estimateTokens t : ℚ) ≤ b
  · have hid : truncateToTokenBudget t b = t := by
      unfold truncateToTokenBudget
      simp [h]
    constructor
    · rw [hid]
      have h2 : (estimateTokens t : ℤ) ≤ ⌈b⌉ := by
        have := le_trans h (Int.le_ceil b)
        exact_mod_cast this
      exact le_trans h2 (le_max_left _ _)
    · simp only [h, true_or, iff_true]
      exact hid
  · have hx0 : (0 : ℚ) ≤ max 0 (b - 4) * 4 :=
      mul_nonneg (le_max_left _ _) (by norm_num)
    have hf0 : (0 : ℤ) ≤ ⌊max 0 (b - 4) * 4⌋ := Int.floor_nonneg.mpr hx0
    have hKc : (⌊max 0 (b - 4) * 4⌋.toNat : ℚ) ≤ max 0 (b - 4) * 4 := by
      have h1 : ((⌊max 0 (b - 4) * 4⌋.toNat : ℤ) : ℚ) ≤ max 0 (b - 4) * 4 := by
        rw [Int.toNat_of_nonneg hf0]
        exact Int.floor_le _
      exact_mod_cast h1
    have hval := truncateToTokenBudget_eq_of_gt t b h
    have hlen := truncateToTokenBudget_length_of_gt t b h
    have hbt : b < (estimateTokens t : ℚ) := not_le.mp h
    have hcast : (estimateTokens t : ℚ) ≤ ((t.length : ℚ) + 3) / 4 := by
      rw [estimateTokens]
      calc (((t.length + 3) / 4 : ℕ) : ℚ)
          ≤ ((t.length + 3 : ℕ) : ℚ) / ((4 : ℕ) : ℚ) := Nat.cast_div_le
        _ = ((t.length : ℚ) + 3) / 4 := by push_cast; ring
    have hL4 : 4 * b < (t.length : ℚ) + 3 := by
      have := lt_of_lt_of_le hbt hcast
      linarith
    have hKL : ⌊max 0 (b - 4) * 4⌋.toNat < t.length := by
      by_cases hb4 : b < 4
      · have hm : max 0 (b - 4) = 0 := max_eq_left (by linarith)
        have hK0 : ⌊max 0 (b - 4) * 4⌋.toNat = 0 := by
          rw [hm]; norm_num
        have hest1 : 1 ≤ estimateTokens t := by
          by_contra hcon
          have hz : estimateTokens t = 0 := by omega
          rw [hz] at hbt
          push_cast at hbt
          linarith
        have hL1 : 1 ≤ t.length := by
          rw [estimateTokens] at hest1
          omega
        omega
      · push_neg at hb4
        have hxeq : max 0 (b - 4) * 4 = 4 * b - 16 := by
          rw [max_eq_right (by linarith)]
          ring
        have hKc2 : (⌊max 0 (b - 4) * 4⌋.toNat : ℚ) ≤ 4 * b - 16 :=
          le_of_le_of_eq hKc hxeq
        have h1 : (⌊max 0 (b - 4) * 4⌋.toNat : ℚ) < (t.length : ℚ) := by
          linarith
        exact_mod_cast h1
    constructor
    · have hres : estimateTokens (truncateToTokenBudget t b)
          = (min ⌊max 0 (b - 4) * 4⌋.toNat t.length + 16 + 3) / 4 := by
        rw [estimateTokens, hlen]
      rw [hres, min_eq_left hKL.le]
      by_cases hb4 : b < 4
      · have hm : max 0 (b - 4) = 0 := max_eq_left (by linarith)
        have hK0 : ⌊max 0 (b - 4) * 4⌋.toNat = 0 := by
          rw [hm]; norm_num
        rw [hK0]
        exact le_trans (by norm_num) hmax4
      · push_neg at hb4
        have hceil4 : (4 : ℤ) ≤ ⌈b⌉ := by
          have := le_trans hb4 (Int.le_ceil b)
          exact_mod_cast this
        have hxeq : max 0 (b - 4) * 4 = 4 * b - 16 := by
          rw [max_eq_right (by linarith)]
          ring
        have hflo : ⌊max 0 (b - 4) * 4⌋ ≤ 4 * ⌈b⌉ - 16 := by
          rw [hxeq]
          have hle : (4 * b - 16 : ℚ) ≤ ((4 * ⌈b⌉ - 16 : ℤ) : ℚ) := by
            push_cast
            have := Int.le_ceil b
            linarith
          calc ⌊(4 * b - 16 : ℚ)⌋ ≤ ⌊((4 * ⌈b⌉ - 16 : ℤ) : ℚ)⌋ :=
                Int.floor_le_floor hle
            _ = 4 * ⌈b⌉ - 16 := Int.floor_intCast _
        have hKint : (⌊max 0 (b - 4) * 4⌋.toNat : ℤ) = ⌊max 0 (b - 4) * 4⌋ :=
          Int.toNat_of_nonneg hf0
        omega
    · constructor
      · intro heq
        have hlen2 := congrArg String.length heq
        rw [hlen, min_eq_left hKL.le] at hlen2
        refine Or.inr ⟨?_, by omega⟩
        rw [← heq, hval, strEndsWith]
        apply List.isSuffixOf_iff_suffix.mpr
        exact ⟨t.toList.take ⌊max 0 (b - 4) * 4⌋.toNat, rfl⟩
      · rintro (hc | ⟨hsuf, hlen2⟩)
        · exact absurd hc h
        · rw [hval]
          rw [strEndsWith] at hsuf
          obtain ⟨p, hp⟩ := List.isSuffixOf_iff_suffix.mp hsuf
          have hplen : p.length = ⌊max 0 (b - 4) * 4⌋.toNat := by
            have hlp := congrArg List.length hp
            rw [List.length_append] at hlp
            have hml : truncationMarker.toList.length = 16 := by decide
            have htl : t.toList.length = t.length := rfl
            omega
          have htake : t.toList.take ⌊max 0 (b - 4) * 4⌋.toNat = p := by
            rw [← hp, ← hplen, List.take_left]
          rw [htake]
          apply String.ext
          rw [String.data_append]
          exact hp

theorem truncateToTokenBudget_estimate_le_and_eq_self_iff_witness :
    ((estimateTokens (truncateToTokenBudget ("ab" ++ truncationMarker) (9/2)) : ℤ)
      ≤ max ⌈(9/2 : ℚ)⌉ (estimateTokens truncationMarker : ℤ)) ∧
    (truncateToTokenBudget ("ab" ++ truncationMarker) (9/2)
        = "ab" ++ truncationMarker ↔
      ((estimateTokens ("ab" ++ truncationMarker) : ℚ) ≤ 9/2 ∨
        (strEndsWith ("ab" ++ truncationMarker) truncationMarker = true ∧
          ("ab" ++ truncationMarker).length
            = ⌊max 0 ((9/2 : ℚ) - 4) * 4⌋.toNat + 16))) :=
  truncateToTokenBudget_estimate_le_and_eq_self_iff
    ("ab" ++ truncationMarker) (9/2) (by norm_num)

/-! ## Progressive tax allocator — src/src/utils/progressive-tax.ts

Token counts and allocations are JS numbers; they are modelled by `ℚ`
(exact arithmetic).  All divisors are nonzero under the theorems'
hypotheses, so the model agrees with the JS float code up to rounding. -/

structure TaxableItem where
  name : String
  tokens : ℚ
deriving DecidableEq, Repr

structure TaxResult where
  name : String
  originalTokens : ℚ
  allocatedTokens : ℚ
  wasProtected : Bool
deriving DecidableEq, Repr

structure TruncationStats where
  totalOriginalTokens : ℚ
  targetTokens : ℚ
  deficit : ℚ
  protectionModeUsed : Bool
  protectedCount : Nat
  truncatedCount : Nat
deriving DecidableEq, Repr

structure ProgressiveTaxResult where
  items : List TaxResult
  stats : TruncationStats
deriving DecidableEq, Repr

/-- Embeds `applyProgressiveTax` step by step: deficit, early return when under
budget, below/above split at `averageTax = deficit / items.length`,
feasibility check `totalBelow > targetTokens`, fallback mode taxing everyone
proportionally, and protection mode sparing the below-average items. -/
def applyProgressiveTax (items : List TaxableItem) (targetTokens : ℚ) :
    ProgressiveTaxResult :=
  let totalTokens : ℚ := (items.map (·.tokens)).sum
  let deficit : ℚ := totalTokens - targetTokens
  if deficit ≤ 0 then
    { items := items.map fun item =>
        { name := item.name
          originalTokens := item.tokens
          allocatedTokens := item.tokens
          wasProtected := false }
      stats :=
        { totalOriginalTokens := totalTokens
          targetTokens := targetTokens
          deficit := 0
          protectionModeUsed := false
          protectedCount := 0
          truncatedCount := 0 } }
  else
    let averageTax : ℚ := deficit / items.length
    let belowAverage := items.filter fun item => item.tokens < averageTax
    let aboveAverage := items.filter fun item => averageTax ≤ item.tokens
    let totalBelow : ℚ := (belowAverage.map (·.tokens)).sum
    let results : List TaxResult :=
      if targetTokens < totalBelow then
        -- Fallback mode: everyone pays proportionally
        items.map fun item =>
          let proportion := item.tokens / totalTokens
          let tax := proportion * deficit
          let allocatedTokens := max 0 (item.tokens - tax)
          { name := item.name
            originalTokens := item.tokens
            allocatedTokens := allocatedTokens
            wasProtected := false }
      else
        -- Protection mode: tax only the above-average items
        let totalAbove : ℚ := (aboveAverage.map (·.tokens)).sum
        let aboveResults := aboveAverage.map fun item =>
          let proportion := if 0 < totalAbove then item.tokens / totalAbove else 0
          let tax := proportion * deficit
          let allocatedTokens := max 0 (item.tokens - tax)
          { name := item.name
            originalTokens := item.tokens
            allocatedTokens := allocatedTokens
            wasProtected := false }
        let belowResults := belowAverage.map fun item =>
          { name := item.name
            originalTokens := item.tokens
            allocatedTokens := item.tokens
            wasProtected := true }
        aboveResults ++ belowResults
    let protectionModeUsed := decide (totalBelow ≤ targetTokens)
    { items := results
      stats :=
        { totalOriginalTokens := totalTokens
          targetTokens := targetTokens
          deficit := deficit
          protectionModeUsed := protectionModeUsed
          protectedCount := (results.filter (·.wasProtected)).length
          truncatedCount :=
            (results.filter fun r => r.allocatedTokens < r.originalTokens).length } }

/-- Embeds `getAllocations`: name-to-allocation association list. -/
def getAllocations (items : List TaxableItem) (targetTokens : ℚ) :
    List (String × ℚ) :=
  (applyProgressiveTax items targetTokens).items.map fun item =>
    (item.name, item.allocatedTokens)

/-- Splitting the token sum of a list at a threshold `c`: the below-`c` part
and the at-least-`c` part add up to the whole sum. -/
theorem sum_tokens_filter_split (l : List TaxableItem) (c : ℚ) :
    (((l.filter fun i => i.tokens < c).map (·.tokens)).sum : ℚ)
      + ((l.filter fun i => c ≤ i.tokens).map (·.tokens)).sum
      = (l.map (·.tokens)).sum := by
  induction l with
  | nil => simp
  | cons a t ih =>
    by_cases h : a.tokens < c
    · have h' : ¬ c ≤ a.tokens := not_le.mpr h
      simp [List.filter_cons, h, h']
      linarith [ih]
    · have h' : c ≤ a.tokens := not_lt.mp h
      simp [List.filter_cons, h, h']
      linarith [ih]

/-- C1 counterexample: an item with a negative token count (the `tokens`
field of a `TaxableItem` is an arbitrary JS number) keeps its negative
allocation in protection mode, so the claimed lower bound
`0 ≤ allocated_tokens` fails while the deficit is strictly positive and the
target is nonnegative. -/
theorem applyProgressiveTax_claim_cex :
    (0 : ℚ) ≤ 2 ∧
    0 < ((([⟨"a", -1⟩, ⟨"b", 11⟩] : List TaxableItem).map (·.tokens)).sum - 2) ∧
    (⟨"a", -1, -1, true⟩ : TaxResult)
      ∈ (applyProgressiveTax [⟨"a", -1⟩, ⟨"b", 11⟩] 2).items ∧
    ¬ (0 : ℚ) ≤ (-1 : ℚ) := by
  refine ⟨by norm_num, by norm_num [applyProgressiveTax], ?_, by norm_num⟩
  norm_num [applyProgressiveTax]

/-- C1 (amended): for nonnegative token counts, a nonnegative target and a
strictly positive deficit, the allocations returned by `applyProgressiveTax`
sum exactly to the target (exact equality in the rational model of the JS
floats) and every allocation lies between `0` and the item's original token
count. -/
theorem applyProgressiveTax_sum_eq_target_and_bounds
    (items : List TaxableItem) (targetTokens : ℚ)
    (htok : ∀ i ∈ items, 0 ≤ i.tokens)
    (htar : 0 ≤ targetTokens)
    (hdef : 0 < (items.map (·.tokens)).sum - targetTokens) :
    ((applyProgressiveTax items targetTokens).items.map
        (·.allocatedTokens)).sum = targetTokens ∧
    ∀ r ∈ (applyProgressiveTax items targetTokens).items,
      0 ≤ r.allocatedTokens ∧ r.allocatedTokens ≤ r.originalTokens := by
  have hdefle : ¬ ((items.map (·.tokens)).sum - targetTokens ≤ 0) :=
    not_le.mpr hdef
  set total : ℚ := (items.map (·.tokens)).sum with htotal
  have htotpos : 0 < total := by linarith
  set averageTax : ℚ := (total - targetTokens) / items.length with havg
  set totalBelow : ℚ :=
    ((items.filter fun i => i.tokens < averageTax).map (·.tokens)).sum
    with hbelow
  set totalAbove : ℚ :=
    ((items.filter fun i => averageTax ≤ i.tokens).map (·.tokens)).sum
    with habove
  have hsplit : totalBelow + totalAbove = total :=
    sum_tokens_filter_split items averageTax
  rw [applyProgressiveTax]
  simp only [← htotal, ← havg, ← hbelow, ← habove]
  rw [if_neg hdefle]
  by_cases hfb : targetTokens < totalBelow
  · -- Fallback mode: everyone taxed proportionally
    rw [if_pos hfb]
    have key : ∀ i ∈ items,
        max 0 (i.tokens - i.tokens / total * (total - targetTokens))
          = i.tokens * (targetTokens / total) := by
      intro i hi
      have h0 : 0 ≤ i.tokens := htok i hi
      have heq : i.tokens - i.tokens / total * (total - targetTokens)
          = i.tokens * (targetTokens / total) := by
        field_simp
        ring
      rw [heq, max_eq_right
        (mul_nonneg h0 (div_nonneg htar htotpos.le))]
    constructor
    · rw [List.map_map]
      have hcong :
          items.map ((fun r : TaxResult => r.allocatedTokens) ∘ fun item =>
            { name := item.name, originalTokens := item.tokens,
              allocatedTokens :=
                max 0 (item.tokens - item.tokens / total * (total - targetTokens)),
              wasProtected := false })
          = items.map fun i => i.tokens * (targetTokens / total) :=
        List.map_congr_left fun i hi => key i hi
      rw [hcong, List.sum_map_mul_right, ← htotal, mul_comm,
        div_mul_cancel₀ _ (ne_of_gt htotpos)]
    · intro r hr
      obtain ⟨i, hi, rfl⟩ := List.mem_map.mp hr
      have h0 : 0 ≤ i.tokens := htok i hi
      have htax : 0 ≤ i.tokens / total * (total - targetTokens) :=
        mul_nonneg (div_nonneg h0 htotpos.le) hdef.le
      exact ⟨le_max_left _ _, max_le h0 (by simp only; linarith)⟩
  · -- Protection mode: below-average items are spared
    rw [if_neg hfb]
    have hble : totalBelow ≤ targetTokens := not_lt.mp hfb
    have habove_ge : total - targetTokens ≤ totalAbove := by linarith
    have habove_pos : 0 < totalAbove := lt_of_lt_of_le hdef habove_ge
    simp only [if_pos habove_pos]
    have keyA : ∀ i ∈ items.filter fun i => averageTax ≤ i.tokens,
        max 0 (i.tokens - i.tokens / totalAbove * (total - targetTokens))
          = i.tokens * ((totalAbove - (total - targetTokens)) / totalAbove) := by
      intro i hi
      have h0 : 0 ≤ i.tokens := htok i (List.mem_of_mem_filter hi)
      have heq : i.tokens - i.tokens / totalAbove * (total - targetTokens)
          = i.tokens * ((totalAbove - (total - targetTokens)) / totalAbove) := by
        field_simp
        ring
      rw [heq, max_eq_right (mul_nonneg h0
        (div_nonneg (by linarith) habove_pos.le))]
    constructor
    · rw [List.map_append, List.sum_append, List.map_map, List.map_map]
      have hcongA :
          (items.filter fun i => averageTax ≤ i.tokens).map
            ((fun r : TaxResult => r.allocatedTokens) ∘ fun item =>
              { name := item.name, originalTokens := item.tokens,
                allocatedTokens :=
                  max 0 (item.tokens -
                    item.tokens / totalAbove * (total - targetTokens)),
                wasProtected := false })
          = (items.filter fun i => averageTax ≤ i.tokens).map
              fun i => i.tokens * ((totalAbove - (total - targetTokens)) / totalAbove) :=
        List.map_congr_left fun i hi => keyA i hi
      have hcongB :
          (items.filter fun i => i.tokens < averageTax).map
            ((fun r : TaxResult => r.allocatedTokens) ∘ fun item =>
              { name := item.name, originalTokens := item.tokens,
                allocatedTokens := item.tokens, wasProtected := true })
          = (items.filter fun i => i.tokens < averageTax).map (·.tokens) :=
        List.map_congr_left fun i _ => rfl
      rw [hcongA, hcongB, List.sum_map_mul_right, ← habove, ← hbelow,
        mul_comm, div_mul_cancel₀ _ (ne_of_gt habove_pos)]
      linarith
    · intro r hr
      rcases List.mem_append.mp hr with hra | hrb
      · obtain ⟨i, hi, rfl⟩ := List.mem_map.mp hra
        have h0 : 0 ≤ i.tokens := htok i (List.mem_of_mem_filter hi)
        have htax : 0 ≤ i.tokens / totalAbove * (total - targetTokens) :=
          mul_nonneg (div_nonneg h0 habove_pos.le) hdef.le
        exact ⟨le_max_left _ _, max_le h0 (by simp only; linarith)⟩
      · obtain ⟨i, hi, rfl⟩ := List.mem_map.mp hrb
        have h0 : 0 ≤ i.tokens := htok i (List.mem_of_mem_filter hi)
        exact ⟨h0, le_refl _⟩

/-- Witness for C1: the amended theorem applied to a concrete scenario. -/
theorem applyProgressiveTax_sum_eq_target_and_bounds_witness :
    ((applyProgressiveTax [⟨"a", 1⟩, ⟨"b", 9⟩] 6).items.map
        (·.allocatedTokens)).sum = 6 ∧
    ∀ r ∈ (applyProgressiveTax [⟨"a", 1⟩, ⟨"b", 9⟩] 6).items,
      0 ≤ r.allocatedTokens ∧ r.allocatedTokens ≤ r.originalTokens :=
  applyProgressiveTax_sum_eq_target_and_bounds [⟨"a", 1⟩, ⟨"b", 9⟩] 6
    (by intro i hi; fin_cases hi <;> norm_num) (by norm_num) (by norm_num)

/-- C3: with a strictly positive deficit, `applyProgressiveTax` uses
protection mode iff the total token count of the below-average items is at
most the target, and in that case every below-average item (tokens strictly
below `deficit / N`) appears in the result with its full original token
count, marked protected. -/
theorem applyProgressiveTax_protection_iff_and_spares
    (items : List TaxableItem) (targetTokens : ℚ)
    (hdef : 0 < (items.map (·.tokens)).sum - targetTokens) :
    ((applyProgressiveTax items targetTokens).stats.protectionModeUsed = true ↔
      ((items.filter fun i =>
          i.tokens < ((items.map (·.tokens)).sum - targetTokens)
            / items.length).map (·.tokens)).sum ≤ targetTokens) ∧
    (((items.filter fun i =>
          i.tokens < ((items.map (·.tokens)).sum - targetTokens)
            / items.length).map (·.tokens)).sum ≤ targetTokens →
      ∀ i ∈ items,
        i.tokens < ((items.map (·.tokens)).sum - targetTokens) / items.length →
        (⟨i.name, i.tokens, i.tokens, true⟩ : TaxResult)
          ∈ (applyProgressiveTax items targetTokens).items) := by
  have hdefle : ¬ ((items.map (·.tokens)).sum - targetTokens ≤ 0) :=
    not_le.mpr hdef
  rw [applyProgressiveTax]
  rw [if_neg hdefle]
  constructor
  · exact decide_eq_true_iff
  · intro hble i hi hlt
    dsimp only
    rw [if_neg (not_lt.mpr hble)]
    refine List.mem_append_right _ ?_
    exact List.mem_map.mpr
      ⟨i, List.mem_filter.mpr ⟨hi, by simpa using hlt⟩, rfl⟩

/-- Witness for C3 at a concrete input with strictly positive deficit. -/
theorem applyProgressiveTax_protection_iff_and_spares_witness :
    ((applyProgressiveTax [⟨"a", 1⟩, ⟨"b", 9⟩] 6).stats.protectionModeUsed
        = true ↔
      ((([⟨"a", 1⟩, ⟨"b", 9⟩] : List TaxableItem).filter fun i =>
          i.tokens < ((([⟨"a", 1⟩, ⟨"b", 9⟩]
              : List TaxableItem).map (·.tokens)).sum - 6)
            / ([⟨"a", 1⟩, ⟨"b", 9⟩] : List TaxableItem).length).map
          (·.tokens)).sum ≤ 6) ∧
    (((([⟨"a", 1⟩, ⟨"b", 9⟩] : List TaxableItem).filter fun i =>
          i.tokens < ((([⟨"a", 1⟩, ⟨"b", 9⟩]
              : List TaxableItem).map (·.tokens)).sum - 6)
            / ([⟨"a", 1⟩, ⟨"b", 9⟩] : List TaxableItem).length).map
          (·.tokens)).sum ≤ 6 →
      ∀ i ∈ ([⟨"a", 1⟩, ⟨"b", 9⟩] : List TaxableItem),
        i.tokens < ((([⟨"a", 1⟩, ⟨"b", 9⟩]
            : List TaxableItem).map (·.tokens)).sum - 6)
          / ([⟨"a", 1⟩, ⟨"b", 9⟩] : List TaxableItem).length →
        (⟨i.name, i.tokens, i.tokens, true⟩ : TaxResult)
          ∈ (applyProgressiveTax [⟨"a", 1⟩, ⟨"b", 9⟩] 6).items) :=
  applyProgressiveTax_protection_iff_and_spares [⟨"a", 1⟩, ⟨"b", 9⟩] 6
    (by norm_num)

/-! ## Fuzzy filename matcher — src/src/utils/fuzzy-filename-match.ts

JS strings are sequences of characters; the regex operations used by the
matcher (`\s`, anchored suffix replacement, split on separator classes) are
implemented structurally over the character list.  `toLowerCase` is modelled
by ASCII `Char.toLower` (the two agree on ASCII, which is all these
filenames contain). -/

/-- The JS regex character class `\s`, by code point. -/
def isJsWhitespace (c : Char) : Bool :=
  c.toNat == 9 || c.toNat == 10 || c.toNat == 11 || c.toNat == 12 ||
  c.toNat == 13 || c.toNat == 32 || c.toNat == 0xa0 || c.toNat == 0x1680 ||
  (0x2000 ≤ c.toNat && c.toNat ≤ 0x200a) || c.toNat == 0x2028 ||
  c.toNat == 0x2029 || c.toNat == 0x202f || c.toNat == 0x205f ||
  c.toNat == 0x3000 || c.toNat == 0xfeff

/-- `replace(/\s+/g, ' ')`: collapse runs of whitespace to a single space.
The flag records whether the previous character was whitespace. -/
def collapseWsAux : Bool → List Char → List Char
  | _, [] => []
  | prevWs, c :: rest =>
    if isJsWhitespace c then
      if prevWs then collapseWsAux true rest
      else ' ' :: collapseWsAux true rest
    else c :: collapseWsAux false rest

def collapseWs (l : List Char) : List Char := collapseWsAux false l

/-- JS `trim()`: strip leading and trailing whitespace. -/
def trimJs (l : List Char) : List Char :=
  ((l.dropWhile isJsWhitespace).reverse.dropWhile isJsWhitespace).reverse

/-- JS `String.prototype.startsWith`. -/
def strStartsWith (s pre : String) : Bool :=
  pre.toList.isPrefixOf s.toList

/-- Drop the last `n` characters (used to strip a matched suffix). -/
def strDropRight (s : String) (n : Nat) : String :=
  String.mk (s.toList.take (s.toList.length - n))

/-- ASCII model of JS `toLowerCase()`. -/
def toLowerStr (s : String) : String :=
  String.mk (s.toList.map Char.toLower)

/-- The alternatives of the anchored regex
`/\.(jpg|jpeg|png|gif|tiff|tif|bmp|webp)$/i` (input is lowercase already). -/
def imageExtensions : List String :=
  [".jpg", ".jpeg", ".png", ".gif", ".tiff", ".tif", ".bmp", ".webp"]

/-- `replace(/\.ref\.json$/i, '')` on a lowercased string. -/
def stripRefJson (s : String) : String :=
  if strEndsWith s ".ref.json" then strDropRight s 9 else s

/-- Anchored image-extension strip: remove the matching extension, if any. -/
def stripImageExtension (s : String) : String :=
  match imageExtensions.find? (fun ext => strEndsWith s ext) with
  | some ext => strDropRight s ext.length
  | none => s

/-- Embeds `normalizeFilename`: lowercase, strip the trailing `.ref.json`,
strip a trailing image extension, collapse whitespace runs, trim. -/
def normalizeFilename (filename : String) : String :=
  String.mk (trimJs (collapseWs
    (stripImageExtension (stripRefJson (toLowerStr filename))).toList))

/-- The separator class of `split(/[\s_\-\.]+/)`. -/
def isTokenSep (c : Char) : Bool :=
  isJsWhitespace c || c == '_' || c == '-' || c == '.'

/-- Splits into maximal non-separator runs; empty fragments are dropped, as
the source's `filter(t => t.length > 0)` does.  `cur` accumulates the
current run in reverse. -/
def splitTokensGo (cur : List Char) : List Char → List String
  | [] => if cur.isEmpty then [] else [String.mk cur.reverse]
  | c :: rest =>
    if isTokenSep c then
      if cur.isEmpty then splitTokensGo [] rest
      else String.mk cur.reverse :: splitTokensGo [] rest
    else splitTokensGo (c :: cur) rest

/-- Embeds `tokenizeFilename`: the set of nonempty tokens of the normalized
name (the source's extra `toLowerCase` is a no-op on normalized names). -/
def tokenizeFilename (filename : String) : Finset String :=
  (splitTokensGo [] (normalizeFilename filename).toList).toFinset

/-- Embeds `calculateJaccardSimilarity` on the two token sets. -/
def calculateJaccardSimilarity (set1 set2 : Finset String) : ℚ :=
  if set1.card = 0 ∧ set2.card = 0 then 1
  else if set1.card = 0 ∨ set2.card = 0 then 0
  else ((set1 ∩ set2).card : ℚ) / ((set1 ∪ set2).card : ℚ)

/-- Match confidence levels (`pfx` models the source's `prefix` level). -/
inductive MatchConfidence where
  | exact
  | normalized
  | pfx
  | token
deriving DecidableEq, Repr

/-- `matched` models the source's `match` field (a Lean keyword). -/
structure MatchResult where
  matched : Option String
  confidence : Option MatchConfidence
deriving DecidableEq, Repr

/-- The precomputed per-original data of the matcher. -/
structure OriginalData where
  original : String
  normalized : String
  tokens : Finset String
deriving DecidableEq

def mkOriginalData (o : String) : OriginalData :=
  { original := o
    normalized := normalizeFilename o
    tokens := tokenizeFilename o }

/-- The per-original test of the prefix stage (`MIN_PREFIX_RATIO = 0.6`),
both directions exactly as in the source loop body. -/
def prefixMatchCheck (normalizedLlm normalizedOrig : String) : Bool :=
  (strStartsWith normalizedOrig normalizedLlm &&
    decide ((6 : ℚ)/10 ≤
      (normalizedLlm.length : ℚ) / (normalizedOrig.length : ℚ))) ||
  (strStartsWith normalizedLlm normalizedOrig &&
    decide ((6 : ℚ)/10 ≤
      (normalizedOrig.length : ℚ) / (normalizedLlm.length : ℚ)))

/-- The loop of the token-overlap stage: `best` is the running
`bestTokenMatch` variable, updated in list order; only a strictly greater
similarity replaces it, so the first of equally-similar candidates wins. -/
def bestTokenGo (llmTokens : Finset String) :
    Option (String × ℚ) → List OriginalData → Option (String × ℚ)
  | best, [] => best
  | best, d :: rest =>
    let similarity := calculateJaccardSimilarity llmTokens d.tokens
    let best' :=
      if (7 : ℚ)/10 ≤ similarity then
        match best with
        | none => some (d.original, similarity)
        | some (o, s) =>
          if s < similarity then some (d.original, similarity) else some (o, s)
      else best
    bestTokenGo llmTokens best' rest

/-- The token-overlap stage: best Jaccard similarity at least
`MIN_TOKEN_SIMILARITY = 0.7`. -/
def bestTokenMatch (llmTokens : Finset String) (data : List OriginalData) :
    Option (String × ℚ) :=
  bestTokenGo llmTokens none data

/-- Embeds `findBestMatch`: exact, normalized, prefix, then token stage. -/
def findBestMatch (llmFilename : String) (originalFilenames : List String) :
    MatchResult :=
  if llmFilename ∈ originalFilenames then
    { matched := some llmFilename, confidence := some .exact }
  else
    let normalizedLlm := normalizeFilename llmFilename
    let llmTokens := tokenizeFilename llmFilename
    let originalData := originalFilenames.map mkOriginalData
    match originalData.find? (fun d => d.normalized == normalizedLlm) with
    | some d => { matched := some d.original, confidence := some .normalized }
    | none =>
      match originalData.find?
          (fun d => prefixMatchCheck normalizedLlm d.normalized) with
      | some d => { matched := some d.original, confidence := some .pfx }
      | none =>
        match bestTokenMatch llmTokens originalData with
        | some (o, _) => { matched := some o, confidence := some .token }
        | none => { matched := none, confidence := none }

/-- Embeds `buildFilenameMatcher` applied to one query.  The source's
precomputed `normalizedToOriginal` map keeps the first occurrence of each
normalized form, so its lookup is `find?` over the originals in order; the
other stages are the same loops as `findBestMatch`. -/
def buildFilenameMatcher (originalFilenames : List String)
    (llmFilename : String) : MatchResult :=
  if llmFilename ∈ originalFilenames then
    { matched := some llmFilename, confidence := some .exact }
  else
    let normalizedLlm := normalizeFilename llmFilename
    let originalData := originalFilenames.map mkOriginalData
    match originalData.find? (fun d => d.normalized == normalizedLlm) with
    | some d => { matched := some d.original, confidence := some .normalized }
    | none =>
      match originalData.find?
          (fun d => prefixMatchCheck normalizedLlm d.normalized) with
      | some d => { matched := some d.original, confidence := some .pfx }
      | none =>
        match bestTokenMatch (tokenizeFilename llmFilename) originalData with
        | some (o, _) => { matched := some o, confidence := some .token }
        | none => { matched := none, confidence := none }

/-- The batched matcher answers every query exactly as `findBestMatch`. -/
theorem buildFilenameMatcher_eq_findBestMatch
    (originalFilenames : List String) (llmFilename : String) :
    buildFilenameMatcher originalFilenames llmFilename
      = findBestMatch llmFilename originalFilenames := rfl

/-- The running best of the token stage is `some` iff it started `some` or
some candidate reaches the similarity threshold. -/
theorem bestTokenGo_isSome_iff (llmTokens : Finset String) :
    ∀ (data : List OriginalData) (best : Option (String × ℚ)),
    (bestTokenGo llmTokens best data).isSome = true ↔
      best.isSome = true ∨
        ∃ d ∈ data,
          (7 : ℚ)/10 ≤ calculateJaccardSimilarity llmTokens d.tokens := by
  intro data
  induction data with
  | nil => intro best; simp [bestTokenGo]
  | cons d rest ih =>
    intro best
    simp only [bestTokenGo]
    by_cases hsim : (7 : ℚ)/10 ≤ calculateJaccardSimilarity llmTokens d.tokens
    · rw [if_pos hsim, ih]
      cases best with
      | none => simp [hsim]
      | some p =>
        rcases p with ⟨o, sc⟩
        by_cases hlt : sc < calculateJaccardSimilarity llmTokens d.tokens
        · simp [hlt, hsim]
        · simp [hlt, hsim]
    · rw [if_neg hsim, ih]
      constructor
      · rintro (hb | ⟨d', hd', hs'⟩)
        · exact Or.inl hb
        · exact Or.inr ⟨d', List.mem_cons_of_mem _ hd', hs'⟩
      · rintro (hb | ⟨d', hd', hs'⟩)
        · exact Or.inl hb
        · rcases List.mem_cons.mp hd' with rfl | hd'
          · exact absurd hs' hsim
          · exact Or.inr ⟨d', hd', hs'⟩

/-- C6 counterexample: two inputs whose normalized forms coincide.  For the
query `a`, the matcher resolves to whichever input comes first, so the
`match` component differs between two permutations of the same input set. -/
theorem findBestMatch_order_dependent_cex :
    (["A.jpg", "a.png"] : List String).Perm ["a.png", "A.jpg"] ∧
    (findBestMatch "a" ["A.jpg", "a.png"]).matched = some "A.jpg" ∧
    (findBestMatch "a" ["a.png", "A.jpg"]).matched = some "a.png" ∧
    (findBestMatch "a" ["A.jpg", "a.png"]).matched
      ≠ (findBestMatch "a" ["a.png", "A.jpg"]).matched := by
  refine ⟨by decide, by decide, by decide, by decide⟩

/-- C6 (amended): the `confidence` component of the matcher is invariant
under permutation of the input set — each stage fires iff some input
satisfies its test, which is order-independent — while the `match` component
may depend on the order, because the normalized, prefix and token stages
return the first (or first-best) candidate in input order. -/
theorem findBestMatch_confidence_perm (s : String) (O₁ O₂ : List String)
    (h : O₁.Perm O₂) :
    (findBestMatch s O₁).confidence = (findBestMatch s O₂).confidence := by
  unfold findBestMatch
  by_cases hmem : s ∈ O₁
  · rw [if_pos hmem, if_pos (h.mem_iff.mp hmem)]
  · rw [if_neg hmem, if_neg (fun hc => hmem (h.mem_iff.mpr hc))]
    have hdata : (O₁.map mkOriginalData).Perm (O₂.map mkOriginalData) :=
      h.map _
    dsimp only
    -- normalized stage
    cases e₁ : (O₁.map mkOriginalData).find?
        (fun d => d.normalized == normalizeFilename s) with
    | some d₁ =>
      cases e₂ : (O₂.map mkOriginalData).find?
          (fun d => d.normalized == normalizeFilename s) with
      | some d₂ => rfl
      | none =>
        exact absurd ((List.find?_eq_none.mp e₂) d₁
            (hdata.mem_iff.mp (List.mem_of_find?_eq_some e₁)))
          (by simpa using (List.find?_some e₁))
    | none =>
      cases e₂ : (O₂.map mkOriginalData).find?
          (fun d => d.normalized == normalizeFilename s) with
      | some d₂ =>
        exact absurd ((List.find?_eq_none.mp e₁) d₂
            (hdata.mem_iff.mpr (List.mem_of_find?_eq_some e₂)))
          (by simpa using (List.find?_some e₂))
      | none =>
        -- prefix stage
        cases f₁ : (O₁.map mkOriginalData).find?
            (fun d => prefixMatchCheck (normalizeFilename s) d.normalized) with
        | some d₁ =>
          cases f₂ : (O₂.map mkOriginalData).find?
              (fun d => prefixMatchCheck (normalizeFilename s) d.normalized) with
          | some d₂ => rfl
          | none =>
            exact absurd ((List.find?_eq_none.mp f₂) d₁
                (hdata.mem_iff.mp (List.mem_of_find?_eq_some f₁)))
              (by simpa using (List.find?_some f₁))
        | none =>
          cases f₂ : (O₂.map mkOriginalData).find?
              (fun d => prefixMatchCheck (normalizeFilename s) d.normalized) with
          | some d₂ =>
            exact absurd ((List.find?_eq_none.mp f₁) d₂
                (hdata.mem_iff.mpr (List.mem_of_find?_eq_some f₂)))
              (by simpa using (List.find?_some f₂))
          | none =>
            -- token stage
            have hiff :
                (bestTokenMatch (tokenizeFilename s)
                    (O₁.map mkOriginalData)).isSome = true ↔
                (bestTokenMatch (tokenizeFilename s)
                    (O₂.map mkOriginalData)).isSome = true := by
              rw [bestTokenMatch, bestTokenMatch,
                bestTokenGo_isSome_iff, bestTokenGo_isSome_iff]
              constructor
              · rintro (hb | ⟨d, hd, hs'⟩)
                · simp at hb
                · exact Or.inr ⟨d, hdata.mem_iff.mp hd, hs'⟩
              · rintro (hb | ⟨d, hd, hs'⟩)
                · simp at hb
                · exact Or.inr ⟨d, hdata.mem_iff.mpr hd, hs'⟩
            cases g₁ : bestTokenMatch (tokenizeFilename s)
                (O₁.map mkOriginalData) with
            | some p₁ =>
              cases g₂ : bestTokenMatch (tokenizeFilename s)
                  (O₂.map mkOriginalData) with
              | some p₂ => rfl
              | none => simp [g₁, g₂] at hiff
            | none =>
              cases g₂ : bestTokenMatch (tokenizeFilename s)
                  (O₂.map mkOriginalData) with
              | some p₂ => simp [g₁, g₂] at hiff
              | none => rfl

/-- Witness for the amended C6 theorem at a concrete permutation. -/
theorem findBestMatch_confidence_perm_witness :
    (findBestMatch "a" ["A.jpg", "a.png"]).confidence
      = (findBestMatch "a" ["a.png", "A.jpg"]).confidence :=
  findBestMatch_confidence_perm "a" ["A.jpg", "a.png"] ["a.png", "A.jpg"]
    (by decide)

/-! ## Response validation — src/src/validation.ts (graceful version)

The typed embedding makes the "is an array / field present" checks of the
source vacuous; the remaining structural checks (JS falsiness of a string is
emptiness) and the whole sanitization pipeline are embedded below.
`validateResponse` returns `Except.error` where the source throws. -/

structure OrganizeGroup where
  group_name : String
  description : String
  files : List String
deriving DecidableEq, Repr

structure OrganizeStructuredOutput where
  groups : List OrganizeGroup
  ungrouped_files : List String
  reorganization_description : String
deriving DecidableEq, Repr

structure ValidationResult where
  warnings : List String
  sanitizedResponse : OrganizeStructuredOutput
deriving DecidableEq, Repr

/-- Embeds `isFilesystemSafe`: no character of `/ \ : * ? " < > |`. -/
def isFilesystemSafe (name : String) : Bool :=
  !(name.toList.any fun c =>
    c == '/' || c == '\\' || c == ':' || c == '*' || c == '?' ||
    c == '"' || c == '<' || c == '>' || c == '|')

/-- Embeds `validateGroup` (the index only feeds the thrown message, which
is abbreviated here); `none` means the group passes all structural checks. -/
def validateGroup (group : OrganizeGroup) : Option String :=
  if group.group_name = "" then
    some "group_name is required"
  else if group.description = "" then
    some "description is required"
  else if group.files = [] then
    some "group must contain at least 1 file"
  else if !isFilesystemSafe group.group_name then
    some "group_name contains invalid characters"
  else none

/-- Embeds the `isDirectoryPath` helper: the string ends with a slash. -/
def isDirectoryPath (filename : String) : Bool :=
  strEndsWith filename "/"

/-- The state threaded through the sanitization loops: the `warnings` array
and the `accountedOriginalFiles` set (a JS `Set` used only for membership,
modelled as the insertion list). -/
structure SanitizeAcc where
  warnings : List String
  accounted : List String
deriving DecidableEq, Repr

/-- The per-file loop over one group's `files`: drop directory paths with a
warning; resolve the rest through the matcher, accounting the resolved
original and warning when the resolution was not exact; keep unresolved
strings provisionally (they are dropped later as extras). -/
def sanitizeFilesGo (matcher : String → MatchResult) (groupName : String) :
    List String → SanitizeAcc → List String × SanitizeAcc
  | [], acc => ([], acc)
  | file :: rest, acc =>
    if isDirectoryPath file then
      sanitizeFilesGo matcher groupName rest
        { acc with warnings := acc.warnings ++
            ["directory path " ++ file ++ " removed from group " ++ groupName] }
    else
      match (matcher file).matched with
      | some orig =>
        let acc1 : SanitizeAcc :=
          { warnings := acc.warnings ++
              (if orig ≠ file then
                ["filename " ++ file ++ " resolved to " ++ orig ++
                  " via fuzzy matching"]
              else [])
            accounted := acc.accounted ++ [orig] }
        let r := sanitizeFilesGo matcher groupName rest acc1
        (orig :: r.1, r.2)
      | none =>
        let r := sanitizeFilesGo matcher groupName rest acc
        (file :: r.1, r.2)

/-- The loop over `response.groups`: sanitize each group's files and keep
the group only if some file survived, else drop it with a warning. -/
def sanitizeGroupsGo (matcher : String → MatchResult) :
    List OrganizeGroup → SanitizeAcc → List OrganizeGroup × SanitizeAcc
  | [], acc => ([], acc)
  | g :: rest, acc =>
    let fr := sanitizeFilesGo matcher g.group_name g.files acc
    if 0 < fr.1.length then
      let r := sanitizeGroupsGo matcher rest fr.2
      ({ g with files := fr.1 } :: r.1, r.2)
    else
      sanitizeGroupsGo matcher rest
        { fr.2 with warnings := fr.2.warnings ++
            ["group " ++ g.group_name ++
              " was empty after removing directory paths and excluded"] }

/-- The loop over `response.ungrouped_files`, same policy as for a group's
files but with the ungrouped warning texts. -/
def sanitizeUngroupedGo (matcher : String → MatchResult) :
    List String → SanitizeAcc → List String × SanitizeAcc
  | [], acc => ([], acc)
  | file :: rest, acc =>
    if isDirectoryPath file then
      sanitizeUngroupedGo matcher rest
        { acc with warnings := acc.warnings ++
            ["directory path " ++ file ++ " removed from ungrouped_files"] }
    else
      match (matcher file).matched with
      | some orig =>
        let acc1 : SanitizeAcc :=
          { warnings := acc.warnings ++
              (if orig ≠ file then
                ["filename " ++ file ++ " resolved to " ++ orig ++
                  " via fuzzy matching"]
              else [])
            accounted := acc.accounted ++ [orig] }
        let r := sanitizeUngroupedGo matcher rest acc1
        (orig :: r.1, r.2)
      | none =>
        let r := sanitizeUngroupedGo matcher rest acc
        (file :: r.1, r.2)

/-- A JS `Set.add` on the insertion-ordered element list. -/
def insertUnique (l : List String) (x : String) : List String :=
  if x ∈ l then l else l ++ [x]

/-- The `allResponseFiles` set: all files of the sanitized groups, then the
sanitized ungrouped files. -/
def collectResponseFiles (gs : List OrganizeGroup) (ungrouped : List String) :
    List String :=
  ungrouped.foldl insertUnique
    (gs.foldl (fun s g => g.files.foldl insertUnique s) [])

/-- Embeds `validateResponse` of src/src/validation.ts: structural checks
first (throwing), then sanitization: directory-path removal and fuzzy
resolution over groups and ungrouped files, re-adding omitted request files
to `ungrouped_files`, and finally removal of extra files (names that map to
no request file), filtering group files and ungrouped in place.  The
source's final `accountedOriginalFiles.add` over the missing files is dead
state and is not tracked. -/
def validateResponse (response : OrganizeStructuredOutput)
    (requestFiles : List String) : Except String ValidationResult :=
  if response.reorganization_description = "" then
    .error "Response must contain reorganization_description"
  else
    match response.groups.findSome? validateGroup with
    | some e => .error e
    | none =>
      let matcher := buildFilenameMatcher requestFiles
      let acc0 : SanitizeAcc := { warnings := [], accounted := [] }
      let gr := sanitizeGroupsGo matcher response.groups acc0
      let ur := sanitizeUngroupedGo matcher response.ungrouped_files gr.2
      let sanitizedGroups := gr.1
      let missingFiles := requestFiles.filter fun f => f ∉ ur.2.accounted
      let warnings2 := ur.2.warnings ++
        (if missingFiles.isEmpty then [] else
          ["LLM omitted files from response - added to ungrouped_files as fallback"])
      let sanitizedUngrouped := ur.1 ++ missingFiles
      let allResponseFiles :=
        collectResponseFiles sanitizedGroups sanitizedUngrouped
      let extraFiles := allResponseFiles.filter fun f => f ∉ requestFiles
      if 0 < extraFiles.length then
        .ok
          { warnings := warnings2 ++
              ["response contains files not in request - removed"]
            sanitizedResponse :=
              { groups := sanitizedGroups.map fun g =>
                  { g with files := g.files.filter fun f => f ∈ requestFiles }
                ungrouped_files :=
                  sanitizedUngrouped.filter fun f => f ∈ requestFiles
                reorganization_description :=
                  response.reorganization_description } }
      else
        .ok
          { warnings := warnings2
            sanitizedResponse :=
              { groups := sanitizedGroups
                ungrouped_files := sanitizedUngrouped
                reorganization_description :=
                  response.reorganization_description } }

/-- Embeds `sanitizeGroupName`: invalid characters are replaced by hyphens. -/
def sanitizeGroupName (name : String) : String :=
  String.mk (name.toList.map fun c =>
    if c == '/' || c == '\\' || c == ':' || c == '*' || c == '?' ||
        c == '"' || c == '<' || c == '>' || c == '|' then '-' else c)

/-! Helper lemmas about the sanitization loops. -/

theorem sanitizeFilesGo_accounted (m : String → MatchResult) (gname : String) :
    ∀ (files : List String) (acc : SanitizeAcc) (y : String),
      y ∈ (sanitizeFilesGo m gname files acc).2.accounted →
      y ∈ acc.accounted ∨ y ∈ (sanitizeFilesGo m gname files acc).1 := by
  intro files
  induction files with
  | nil => intro acc y hy; exact Or.inl hy
  | cons file rest ih =>
    intro acc y hy
    simp only [sanitizeFilesGo] at hy ⊢
    by_cases hdir : isDirectoryPath file = true
    · rw [if_pos hdir] at hy ⊢
      exact ih _ y hy
    · rw [if_neg hdir] at hy ⊢
      cases e : (m file).matched with
      | some orig =>
        rw [e] at hy
        dsimp only at hy ⊢
        rcases ih _ y hy with hacc | hsf
        · rcases List.mem_append.mp hacc with h1 | h2
          · exact Or.inl h1
          · right
            exact List.mem_cons.mpr (Or.inl (List.mem_singleton.mp h2))
        · exact Or.inr (List.mem_cons_of_mem _ hsf)
      | none =>
        rw [e] at hy
        dsimp only at hy ⊢
        rcases ih _ y hy with hacc | hsf
        · exact Or.inl hacc
        · exact Or.inr (List.mem_cons_of_mem _ hsf)

theorem sanitizeGroupsGo_name_from (m : String → MatchResult) :
    ∀ (groups : List OrganizeGroup) (acc : SanitizeAcc)
      (g' : OrganizeGroup),
      g' ∈ (sanitizeGroupsGo m groups acc).1 →
      ∃ g ∈ groups, g'.group_name = g.group_name := by
  intro groups
  induction groups with
  | nil => intro acc g' hg'; simp [sanitizeGroupsGo] at hg'
  | cons g rest ih =>
    intro acc g' hg'
    simp only [sanitizeGroupsGo] at hg'
    by_cases hk : 0 < (sanitizeFilesGo m g.group_name g.files acc).1.length
    · rw [if_pos hk] at hg'
      rcases List.mem_cons.mp hg' with rfl | hg''
      · exact ⟨g, List.mem_cons_self _ _, rfl⟩
      · obtain ⟨g0, hg0, hname⟩ := ih _ g' hg''
        exact ⟨g0, List.mem_cons_of_mem _ hg0, hname⟩
    · rw [if_neg hk] at hg'
      obtain ⟨g0, hg0, hname⟩ := ih _ g' hg'
      exact ⟨g0, List.mem_cons_of_mem _ hg0, hname⟩

theorem sanitizeGroupsGo_accounted (m : String → MatchResult) :
    ∀ (groups : List OrganizeGroup) (acc : SanitizeAcc) (y : String),
      y ∈ (sanitizeGroupsGo m groups acc).2.accounted →
      y ∈ acc.accounted ∨
        ∃ g' ∈ (sanitizeGroupsGo m groups acc).1, y ∈ g'.files := by
  intro groups
  induction groups with
  | nil => intro acc y hy; exact Or.inl hy
  | cons g rest ih =>
    intro acc y hy
    simp only [sanitizeGroupsGo] at hy ⊢
    by_cases hk : 0 < (sanitizeFilesGo m g.group_name g.files acc).1.length
    · rw [if_pos hk] at hy ⊢
      rcases ih _ y hy with hacc | ⟨g', hg', hyg⟩
      · rcases sanitizeFilesGo_accounted m g.group_name g.files acc y hacc with
          h1 | h2
        · exact Or.inl h1
        · exact Or.inr ⟨_, List.mem_cons_self _ _, h2⟩
      · exact Or.inr ⟨g', List.mem_cons_of_mem _ hg', hyg⟩
    · rw [if_neg hk] at hy ⊢
      rcases ih _ y hy with hacc | ⟨g', hg', hyg⟩
      · rcases sanitizeFilesGo_accounted m g.group_name g.files acc y hacc with
          h1 | h2
        · exact Or.inl h1
        · rw [List.length_eq_zero.mp (Nat.le_zero.mp (not_lt.mp hk))] at h2
          simp at h2
      · exact Or.inr ⟨g', hg', hyg⟩

theorem sanitizeUngroupedGo_accounted (m : String → MatchResult) :
    ∀ (files : List String) (acc : SanitizeAcc) (y : String),
      y ∈ (sanitizeUngroupedGo m files acc).2.accounted →
      y ∈ acc.accounted ∨ y ∈ (sanitizeUngroupedGo m files acc).1 := by
  intro files
  induction files with
  | nil => intro acc y hy; exact Or.inl hy
  | cons file rest ih =>
    intro acc y hy
    simp only [sanitizeUngroupedGo] at hy ⊢
    by_cases hdir : isDirectoryPath file = true
    · rw [if_pos hdir] at hy ⊢
      exact ih _ y hy
    · rw [if_neg hdir] at hy ⊢
      cases e : (m file).matched with
      | some orig =>
        rw [e] at hy
        dsimp only at hy ⊢
        rcases ih _ y hy with hacc | hsf
        · rcases List.mem_append.mp hacc with h1 | h2
          · exact Or.inl h1
          · right
            exact List.mem_cons.mpr (Or.inl (List.mem_singleton.mp h2))
        · exact Or.inr (List.mem_cons_of_mem _ hsf)
      | none =>
        rw [e] at hy
        dsimp only at hy ⊢
        rcases ih _ y hy with hacc | hsf
        · exact Or.inl hacc
        · exact Or.inr (List.mem_cons_of_mem _ hsf)

theorem mem_insertUnique (l : List String) (x y : String) :
    y ∈ insertUnique l x ↔ y ∈ l ∨ y = x := by
  unfold insertUnique
  by_cases h : x ∈ l
  · rw [if_pos h]
    constructor
    · exact Or.inl
    · rintro (hy | rfl)
      · exact hy
      · exact h
  · rw [if_neg h]
    simp

theorem mem_foldl_insertUnique :
    ∀ (l s : List String) (y : String),
      y ∈ l.foldl insertUnique s ↔ y ∈ s ∨ y ∈ l := by
  intro l
  induction l with
  | nil => intro s y; simp
  | cons x rest ih =>
    intro s y
    rw [List.foldl_cons, ih, mem_insertUnique]
    simp only [List.mem_cons]
    tauto

theorem mem_groups_foldl_insertUnique :
    ∀ (gs : List OrganizeGroup) (s : List String) (y : String),
      y ∈ gs.foldl (fun s g => g.files.foldl insertUnique s) s ↔
        y ∈ s ∨ ∃ g ∈ gs, y ∈ g.files := by
  intro gs
  induction gs with
  | nil => intro s y; simp
  | cons g rest ih =>
    intro s y
    rw [List.foldl_cons, ih, mem_foldl_insertUnique]
    simp only [List.mem_cons]
    constructor
    · rintro ((hs | hg) | ⟨g', hg', hy⟩)
      · exact Or.inl hs
      · exact Or.inr ⟨g, Or.inl rfl, hg⟩
      · exact Or.inr ⟨g', Or.inr hg', hy⟩
    · rintro (hs | ⟨g', (rfl | hg'), hy⟩)
      · exact Or.inl (Or.inl hs)
      · exact Or.inl (Or.inr hy)
      · exact Or.inr ⟨g', hg', hy⟩

theorem mem_collectResponseFiles (gs : List OrganizeGroup)
    (ungrouped : List String) (y : String) :
    y ∈ collectResponseFiles gs ungrouped ↔
      (∃ g ∈ gs, y ∈ g.files) ∨ y ∈ ungrouped := by
  unfold collectResponseFiles
  rw [mem_foldl_insertUnique, mem_groups_foldl_insertUnique]
  simp

theorem validateGroup_eq_none (g : OrganizeGroup)
    (h : validateGroup g = none) :
    isFilesystemSafe g.group_name = true := by
  unfold validateGroup at h
  split_ifs at h with h1 h2 h3 h4
  simpa using h4

/-- C2 (amended): when `validateResponse` succeeds and no input name ends in
a slash, the sanitized plan contains only input names (in groups and in
`ungrouped_files`), every input name appears in some group or in
`ungrouped_files`, no file-name string of the plan ends in a slash, and
every group name is filesystem-safe. -/
theorem validateResponse_sanitized_properties
    (response : OrganizeStructuredOutput) (requestFiles : List String)
    (res : ValidationResult)
    (hok : validateResponse response requestFiles = .ok res)
    (hno : ∀ n ∈ requestFiles, isDirectoryPath n = false) :
    (∀ g ∈ res.sanitizedResponse.groups, ∀ f ∈ g.files, f ∈ requestFiles) ∧
    (∀ f ∈ res.sanitizedResponse.ungrouped_files, f ∈ requestFiles) ∧
    (∀ n ∈ requestFiles,
      (∃ g ∈ res.sanitizedResponse.groups, n ∈ g.files) ∨
        n ∈ res.sanitizedResponse.ungrouped_files) ∧
    (∀ g ∈ res.sanitizedResponse.groups, ∀ f ∈ g.files,
      isDirectoryPath f = false) ∧
    (∀ f ∈ res.sanitizedResponse.ungrouped_files,
      isDirectoryPath f = false) ∧
    (∀ g ∈ res.sanitizedResponse.groups,
      isFilesystemSafe g.group_name = true) := by
  rw [validateResponse] at hok
  by_cases hdesc : response.reorganization_description = ""
  · rw [if_pos hdesc] at hok
    exact absurd hok (by simp)
  · rw [if_neg hdesc] at hok
    cases hfs : response.groups.findSome? validateGroup with
    | some e =>
      rw [hfs] at hok
      exact absurd hok (by simp)
    | none =>
      rw [hfs] at hok
      dsimp only at hok
      have hsafe : ∀ g ∈ response.groups,
          isFilesystemSafe g.group_name = true := fun g hg =>
        validateGroup_eq_none g (List.findSome?_eq_none_iff.mp hfs g hg)
      set m := buildFilenameMatcher requestFiles with hmdef
      set gr := sanitizeGroupsGo m response.groups
        { warnings := [], accounted := [] } with hgrdef
      set ur := sanitizeUngroupedGo m response.ungrouped_files gr.2 with hurdef
      set missing := requestFiles.filter (fun f => f ∉ ur.2.accounted)
        with hmissdef
      set su := ur.1 ++ missing with hsudef
      set extra := (collectResponseFiles gr.1 su).filter
        (fun f => f ∉ requestFiles) with hexdef
      have hcov : ∀ n ∈ requestFiles,
          (∃ g' ∈ gr.1, n ∈ g'.files) ∨ n ∈ su := by
        intro n hn
        by_cases hacc : n ∈ ur.2.accounted
        · rcases sanitizeUngroupedGo_accounted m response.ungrouped_files
            gr.2 n hacc with h1 | h2
          · rcases sanitizeGroupsGo_accounted m response.groups
              { warnings := [], accounted := [] } n h1 with h0 | hg'
            · simp at h0
            · exact Or.inl hg'
          · exact Or.inr (List.mem_append_left _ h2)
        · refine Or.inr (List.mem_append_right _ ?_)
          exact List.mem_filter.mpr ⟨hn, by simpa using hacc⟩
      have hnames : ∀ g' ∈ gr.1, isFilesystemSafe g'.group_name = true := by
        intro g' hg'
        obtain ⟨g0, hg0, hname⟩ := sanitizeGroupsGo_name_from m
          response.groups { warnings := [], accounted := [] } g' hg'
        rw [hname]
        exact hsafe g0 hg0
      by_cases hex : 0 < extra.length
      · rw [if_pos hex] at hok
        injection hok with hres
        subst hres
        dsimp only
        have p1 : ∀ g ∈ gr.1.map (fun g =>
              { g with files := g.files.filter fun f => f ∈ requestFiles }),
            ∀ f ∈ g.files, f ∈ requestFiles := by
          intro g hg f hf
          obtain ⟨g0, _, rfl⟩ := List.mem_map.mp hg
          dsimp only at hf
          simpa using (List.mem_filter.mp hf).2
        have p2 : ∀ f ∈ su.filter (fun f => f ∈ requestFiles),
            f ∈ requestFiles := by
          intro f hf
          simpa using (List.mem_filter.mp hf).2
        refine ⟨p1, p2, ?_, fun g hg f hf => hno f (p1 g hg f hf),
          fun f hf => hno f (p2 f hf), ?_⟩
        · intro n hn
          rcases hcov n hn with ⟨g', hg', hng⟩ | hns
          · refine Or.inl ⟨{ g' with
              files := g'.files.filter fun f => f ∈ requestFiles },
              List.mem_map_of_mem _ hg', ?_⟩
            exact List.mem_filter.mpr ⟨hng, by simpa using hn⟩
          · exact Or.inr (List.mem_filter.mpr ⟨hns, by simpa using hn⟩)
        · intro g hg
          obtain ⟨g0, hg0, rfl⟩ := List.mem_map.mp hg
          exact hnames g0 hg0
      · rw [if_neg hex] at hok
        injection hok with hres
        subst hres
        dsimp only
        have hextra : extra = [] :=
          List.length_eq_zero.mp (Nat.le_zero.mp (not_lt.mp hex))
        have hreq : ∀ y ∈ collectResponseFiles gr.1 su, y ∈ requestFiles := by
          intro y hy
          have := List.filter_eq_nil_iff.mp (hexdef ▸ hextra) y hy
          simpa using this
        have p1 : ∀ g ∈ gr.1, ∀ f ∈ g.files, f ∈ requestFiles := by
          intro g hg f hf
          exact hreq f ((mem_collectResponseFiles gr.1 su f).mpr
            (Or.inl ⟨g, hg, hf⟩))
        have p2 : ∀ f ∈ su, f ∈ requestFiles := by
          intro f hf
          exact hreq f ((mem_collectResponseFiles gr.1 su f).mpr (Or.inr hf))
        exact ⟨p1, p2, hcov, fun g hg f hf => hno f (p1 g hg f hf),
          fun f hf => hno f (p2 f hf), hnames⟩

/-- Witness for the amended C2 theorem at a concrete input where every
returned name resolves exactly. -/
theorem validateResponse_sanitized_properties_witness :
    (∀ g ∈ ((⟨[], ⟨[⟨"G", "d", ["a.txt"]⟩], ["b.txt"], "x"⟩⟩ :
        ValidationResult)).sanitizedResponse.groups,
      ∀ f ∈ g.files, f ∈ ["a.txt", "b.txt"]) ∧
    (∀ f ∈ ((⟨[], ⟨[⟨"G", "d", ["a.txt"]⟩], ["b.txt"], "x"⟩⟩ :
        ValidationResult)).sanitizedResponse.ungrouped_files,
      f ∈ ["a.txt", "b.txt"]) ∧
    (∀ n ∈ ["a.txt", "b.txt"],
      (∃ g ∈ ((⟨[], ⟨[⟨"G", "d", ["a.txt"]⟩], ["b.txt"], "x"⟩⟩ :
          ValidationResult)).sanitizedResponse.groups, n ∈ g.files) ∨
        n ∈ ((⟨[], ⟨[⟨"G", "d", ["a.txt"]⟩], ["b.txt"], "x"⟩⟩ :
          ValidationResult)).sanitizedResponse.ungrouped_files) ∧
    (∀ g ∈ ((⟨[], ⟨[⟨"G", "d", ["a.txt"]⟩], ["b.txt"], "x"⟩⟩ :
        ValidationResult)).sanitizedResponse.groups,
      ∀ f ∈ g.files, isDirectoryPath f = false) ∧
    (∀ f ∈ ((⟨[], ⟨[⟨"G", "d", ["a.txt"]⟩], ["b.txt"], "x"⟩⟩ :
        ValidationResult)).sanitizedResponse.ungrouped_files,
      isDirectoryPath f = false) ∧
    (∀ g ∈ ((⟨[], ⟨[⟨"G", "d", ["a.txt"]⟩], ["b.txt"], "x"⟩⟩ :
        ValidationResult)).sanitizedResponse.groups,
      isFilesystemSafe g.group_name = true) :=
  validateResponse_sanitized_properties
    ⟨[⟨"G", "d", ["a.txt"]⟩], ["b.txt"], "x"⟩ ["a.txt", "b.txt"]
    ⟨[], ⟨[⟨"G", "d", ["a.txt"]⟩], ["b.txt"], "x"⟩⟩
    rfl (by decide)

/-- C2 counterexample: if an input name itself ends in a slash, the
missing-file fallback of step 3 re-adds it to `ungrouped_files`, so the
sanitized plan does contain a string ending in a slash; the claim as stated
(over every input name set) is false. -/
theorem validateResponse_dirname_in_plan_cex :
    (validateResponse ⟨[], [], "d"⟩ ["a/"]).toOption.map
        (fun r => r.sanitizedResponse.ungrouped_files) = some ["a/"] ∧
    isDirectoryPath "a/" = true := by
  decide

/-- An LLM string that resolves to none of the inputs: it fails the exact,
normalized, prefix and token stages against the single input name. -/
theorem matcher_unresolved_qqq :
    buildFilenameMatcher ["a"] "qqq" = ⟨none, none⟩ := by
  have hsim : calculateJaccardSimilarity (tokenizeFilename "qqq")
      (mkOriginalData "a").tokens = 0 := by
    rw [calculateJaccardSimilarity]
    rw [if_neg (by decide), if_neg (by decide)]
    rw [show ((tokenizeFilename "qqq") ∩ (mkOriginalData "a").tokens).card = 0
      from by decide,
      show ((tokenizeFilename "qqq") ∪ (mkOriginalData "a").tokens).card = 2
      from by decide]
    norm_num
  rw [buildFilenameMatcher]
  rw [if_neg (by decide : ¬ ("qqq" ∈ ["a"]))]
  dsimp only
  rw [show (["a"].map mkOriginalData).find?
      (fun d => d.normalized == normalizeFilename "qqq") = none from by decide]
  rw [show (["a"].map mkOriginalData).find?
      (fun d => prefixMatchCheck (normalizeFilename "qqq") d.normalized) = none
      from by decide]
  rw [show ["a"].map mkOriginalData = [mkOriginalData "a"] from rfl]
  rw [bestTokenMatch]
  simp only [bestTokenGo]
  rw [if_neg (by rw [hsim]; norm_num)]

set_option maxHeartbeats 2000000 in
/-- C5: evaluating `validateResponse` at a failing input.  The group `G`
contains only the unresolvable name `qqq`; it survives the step-2
directory-path pass (so it is not dropped there), and the step-4 extra-file
removal then empties its `files` in place without dropping the group — the
sanitized plan keeps an empty group, although the repository's own
validation documentation says groups emptied by sanitization are excluded. -/
theorem validateResponse_keeps_step4_emptied_group :
    (validateResponse ⟨[⟨"G", "d", ["qqq"]⟩], [], "x"⟩ ["a"]).toOption.map
      (fun r => r.sanitizedResponse.groups) = some [⟨"G", "d", []⟩] := by
  rw [validateResponse]
  rw [if_neg (by decide)]
  rw [show ([⟨"G", "d", ["qqq"]⟩] : List OrganizeGroup).findSome? validateGroup
      = none from by decide]
  dsimp only
  simp only [sanitizeGroupsGo, sanitizeFilesGo, sanitizeUngroupedGo,
    matcher_unresolved_qqq, collectResponseFiles, insertUnique,
    show isDirectoryPath "qqq" = false from by decide]
  decide

/-! ## LLM client — src/llm.ts — and the retry wrapper of src/service.ts
(the version with `withRetry` from src/lib/retry.ts)

`callLLM` is embedded as a function of the provider's observable behavior
for one request; network time and sleeping between retries are not
modelled.  `withRetry` is embedded together with the number of attempts it
makes, which is the observable the retry claims are about. -/

structure OpenAIUsage where
  prompt_tokens : Nat
  completion_tokens : Nat
  total_tokens : Nat
deriving DecidableEq, Repr

/-- What `callLLM`'s `fetch` can experience: the fetch rejects (network
error, propagated as the thrown exception) or an HTTP response arrives with
a status, a body text (read on error), and the parsed JSON's `choices`
message contents and `usage`. -/
inductive FetchOutcome where
  | networkError (msg : String)
  | response (status : Nat) (errorText : String) (choices : List String)
      (usage : OpenAIUsage)
deriving DecidableEq, Repr

/-- `Response.ok`: status in the 2xx range. -/
def statusOk (status : Nat) : Bool :=
  decide (200 ≤ status) && decide (status ≤ 299)

/-- The failures `callLLM` can produce.  The source throws plain `Error`s;
these constructors record which `throw` fired: a propagated fetch
rejection, the generic `LLM API error (status): text` for every non-ok
status, and `LLM API returned no choices`. -/
inductive LLMFailure where
  | fetchFailed (msg : String)
  | apiError (status : Nat) (body : String)
  | noChoices
deriving DecidableEq, Repr

structure LLMSuccess where
  content : String
  tokens : Nat
  prompt_tokens : Nat
  completion_tokens : Nat
  cost_usd : ℚ
deriving DecidableEq, Repr

/-- DeepSeek-V3 prices per million tokens (0.38 and 0.89 dollars). -/
def INPUT_COST_PER_MILLION : ℚ := 38/100

def OUTPUT_COST_PER_MILLION : ℚ := 89/100

/-- Embeds `calculateCost`. -/
def calculateCost (usage : OpenAIUsage) : ℚ :=
  (usage.prompt_tokens : ℚ) / 1000000 * INPUT_COST_PER_MILLION +
    (usage.completion_tokens : ℚ) / 1000000 * OUTPUT_COST_PER_MILLION

/-- Embeds `callLLM`: one generic `apiError` for every non-ok status
(429, 503 and other 4xx/5xx alike), `noChoices` when `choices` is empty,
otherwise the first choice's content with the usage-derived cost. -/
def callLLM (outcome : FetchOutcome) : Except LLMFailure LLMSuccess :=
  match outcome with
  | .networkError msg => .error (.fetchFailed msg)
  | .response status errorText choices usage =>
    if !statusOk status then
      .error (.apiError status errorText)
    else
      match choices with
      | [] => .error .noChoices
      | c :: _ =>
        .ok
          { content := c
            tokens := usage.total_tokens
            prompt_tokens := usage.prompt_tokens
            completion_tokens := usage.completion_tokens
            cost_usd := calculateCost usage }

/-- The loop of `withRetry` (src/lib/retry.ts), with the backoff sleep not
modelled: `remaining` counts the attempts left after the current one
(`maxRetries - attempt`), making the recursion structural.  Returns the
index of the last attempt made together with its result; on failure of the
last attempt the last error is rethrown. -/
def withRetryGo {E A : Type} (f : Nat → Except E A) :
    Nat → Nat → Nat × Except E A
  | attempt, 0 =>
    (attempt, f attempt)
  | attempt, remaining + 1 =>
    match f attempt with
    | .ok a => (attempt, .ok a)
    | .error _ => withRetryGo f (attempt + 1) remaining

/-- Embeds `withRetry(fn, {maxRetries})`, starting at attempt 1.  (For
`maxRetries = 0` the source's loop body never runs and it throws `null`;
this degenerate case is modelled as a single attempt and is never used —
the service calls it with `maxRetries = 3`.) -/
def withRetryCount {E A : Type} (f : Nat → Except E A) (maxRetries : Nat) :
    Nat × Except E A :=
  withRetryGo f 1 (maxRetries - 1)

/-- The LLM stage of `processOrganizeRequest`:
`withRetry(() => callLLM(...), {maxRetries: 3, baseDelayMs: 1000,
maxDelayMs: 30000})`, as a function of the provider's per-attempt
behavior. -/
def processOrganizeLLM (provider : Nat → FetchOutcome) :
    Nat × Except LLMFailure LLMSuccess :=
  withRetryCount (fun attempt => callLLM (provider attempt)) 3

/-- When every attempt fails, the retry loop makes every attempt it has. -/
theorem withRetryGo_all_fail {E A : Type} (f : Nat → Except E A)
    (hfail : ∀ n, (f n).isOk = false) :
    ∀ (remaining attempt : Nat),
      (withRetryGo f attempt remaining).1 = attempt + remaining := by
  intro remaining
  induction remaining with
  | zero => intro attempt; rfl
  | succ r ih =>
    intro attempt
    rw [withRetryGo]
    cases hf : f attempt with
    | ok a =>
      have := hfail attempt
      rw [hf] at this
      simp [Except.isOk, Except.toBool] at this
    | error e =>
      rw [ih (attempt + 1)]
      omega

/-- C7 counterexample: a provider that always answers 400 (a permanent
client error in the claimed taxonomy).  `callLLM` raises the same generic
error kind it uses for 429/503, and the organize pipeline makes 3 attempts,
i.e. it retries a permanent failure instead of surfacing it without
retry. -/
theorem processOrganizeLLM_retries_permanent_cex :
    statusOk 400 = false ∧
    callLLM (.response 400 "Bad Request" [] ⟨0, 0, 0⟩)
      = .error (.apiError 400 "Bad Request") ∧
    callLLM (.response 429 "Too Many Requests" [] ⟨0, 0, 0⟩)
      = .error (.apiError 429 "Too Many Requests") ∧
    (processOrganizeLLM (fun _ => .response 400 "Bad Request" [] ⟨0, 0, 0⟩)).1
      = 3 ∧
    (3 : Nat) ≠ 1 := by
  refine ⟨rfl, rfl, rfl, rfl, by decide⟩

/-- C7 (amended): `callLLM` fails with the single generic `apiError`
carrying the status for every non-2xx response (429, 503 and other 4xx
alike — there is no transient/permanent distinction), with `noChoices` when
a 2xx response has no choices, and with the propagated fetch rejection on a
network error; and `processOrganizeRequest` retries the call up to 3
attempts (exponential backoff) on every kind of failure, permanent 4xx
included. -/
theorem callLLM_generic_error_and_retry_on_any_failure
    (status status2 : Nat) (errorText : String) (choices : List String)
    (usage : OpenAIUsage) (msg : String) (provider : Nat → FetchOutcome)
    (hbad : statusOk status = false) (hok : statusOk status2 = true)
    (hfail : ∀ n, (callLLM (provider n)).isOk = false) :
    callLLM (.response status errorText choices usage)
      = .error (.apiError status errorText) ∧
    callLLM (.response status2 errorText [] usage) = .error .noChoices ∧
    callLLM (.networkError msg) = .error (.fetchFailed msg) ∧
    (processOrganizeLLM provider).1 = 3 := by
  refine ⟨?_, ?_, rfl, ?_⟩
  · simp only [callLLM, hbad]
    rfl
  · simp only [callLLM, hok]
    rfl
  · exact withRetryGo_all_fail _ hfail 2 1

/-- Witness for the amended C7 theorem at a concrete always-400 provider. -/
theorem callLLM_generic_error_and_retry_witness :
    callLLM (.response 400 "bad" ["x"] ⟨1, 2, 3⟩)
      = .error (.apiError 400 "bad") ∧
    callLLM (.response 200 "bad" [] ⟨1, 2, 3⟩) = .error .noChoices ∧
    callLLM (.networkError "down") = .error (.fetchFailed "down") ∧
    (processOrganizeLLM (fun _ => .response 400 "bad" [] ⟨0, 0, 0⟩)).1 = 3 :=
  callLLM_generic_error_and_retry_on_any_failure 400 200 "bad" ["x"]
    ⟨1, 2, 3⟩ "down" (fun _ => .response 400 "bad" [] ⟨0, 0, 0⟩)
    (by decide) (by decide) (fun _ => rfl)

/-! ## OrganizerBatchDO — the SQLite-backed batch state machine

The Durable Object's SQLite tables are modelled as a record of row lists;
`batch_state` holds at most one row.  Time strings are not modelled
(`completed_at` is set to a fixed placeholder).  All external I/O of one
alarm tick — the per-PI fetch/LLM outcomes of the PROCESSING phase, the
publish outcome of the PUBLISHING phase, the callback delivery result, and
a possible runtime exception escaping the phase handler (with the storage
as already mutated at the point of the throw) — is an explicit input. -/

inductive Phase where
  | PENDING
  | PROCESSING
  | PUBLISHING
  | CALLBACK
  | DONE
  | ERROR
deriving DecidableEq, Repr

inductive PIStatus where
  | pending
  | fetching
  | processing
  | publishing
  | done
  | error
deriving DecidableEq, Repr

/-- The single `batch_state` row. -/
structure BatchRow where
  batch_id : String
  chunk_id : String
  custom_prompt : Option String
  phase : Phase
  completed_at : Option String
  callback_retry_count : Nat
  global_error : Option String
deriving DecidableEq, Repr

/-- A `pi_state` row. -/
structure PIRow where
  pi : String
  status : PIStatus
  retry_count : Nat
  tip : Option String
  directory_path : Option String
  components : List (String × String)
  new_parent_tip : Option String
  new_parent_version : Option Nat
  ungrouped_files : Option (List String)
  error : Option String
deriving DecidableEq, Repr

/-- A `pi_group_entities` row. -/
structure GroupEntityRow where
  pi : String
  group_name : String
  group_pi : String
  tip : String
  ver : Nat
  files : List String
  description : String
deriving DecidableEq, Repr

/-- A `pi_files` row. -/
structure PIFileRow where
  pi : String
  name : String
  ftype : String
  content : String
deriving DecidableEq, Repr

/-- The DO's persisted SQLite state: one optional `batch_state` row and the
five row tables (rows in insertion order, which for `pi_group_entities`
is ascending `idx`). -/
structure DOStorage where
  batch : Option BatchRow
  piList : List String
  piStates : List PIRow
  piFiles : List PIFileRow
  organizeResults : List (String × String)
  groupEntities : List GroupEntityRow
deriving DecidableEq, Repr

def emptyStorage : DOStorage := ⟨none, [], [], [], [], []⟩

/-- Embeds `clearAllTables`: DELETE FROM every table. -/
def clearAllTables (_st : DOStorage) : DOStorage := emptyStorage

/-- Embeds `cleanup` (run on an alarm in `DONE`/`ERROR`): clears all
persisted state. -/
def cleanup (st : DOStorage) : DOStorage := clearAllTables st

/-- The configuration the DO reads from its environment. -/
structure DOEnv where
  maxRetriesPerPI : Nat
  maxCallbackRetries : Nat
  alarmIntervalMs : Nat
deriving DecidableEq, Repr

/-- UPDATE pi_state ... WHERE pi = ?. -/
def updatePI (st : DOStorage) (pi : String) (f : PIRow → PIRow) : DOStorage :=
  { st with piStates := st.piStates.map fun p => if p.pi = pi then f p else p }

/-- What `processOnePI` can experience for one PI: the fetched context had
fewer than 3 files (marked done, files cleared), the LLM organized it
(result stored, files cleared), or the promise rejected with a message. -/
inductive ProcessOutcome where
  | skippedFewFiles (tip : String) (dir : String)
      (components : List (String × String))
  | organized (tip : String) (dir : String)
      (components : List (String × String)) (resultJson : String)
  | failed (msg : String)
deriving DecidableEq, Repr

/-- One PI's effect during the PROCESSING phase, combining `processOnePI`
with the per-result branch of `processPhase`: fulfilled PIs are set to
`publishing` (also the few-files ones, whose `done` the fulfilled branch
overwrites), rejected ones revert to `pending` or become `error` at
`MAX_RETRIES_PER_PI`. -/
def applyProcessOutcome (env : DOEnv) (st : DOStorage) (p : PIRow)
    (o : ProcessOutcome) : DOStorage :=
  match o with
  | .skippedFewFiles tip dir comps =>
    updatePI st p.pi fun q =>
      { q with
        tip := some tip
        directory_path := some dir
        components := comps
        status := .publishing }
  | .organized tip dir comps resultJson =>
    let st1 := updatePI st p.pi fun q =>
      { q with
        tip := some tip
        directory_path := some dir
        components := comps
        status := .publishing }
    { st1 with organizeResults := st1.organizeResults ++ [(p.pi, resultJson)] }
  | .failed msg =>
    let newRetry := p.retry_count + 1
    if env.maxRetriesPerPI ≤ newRetry then
      updatePI st p.pi fun q =>
        { q with
          status := .error
          retry_count := newRetry
          error := some msg }
    else
      updatePI st p.pi fun q =>
        { q with
          status := .pending
          retry_count := newRetry }

/-- Embeds `processPhase`: when no PI is `pending`/`fetching` any more, move
to `PUBLISHING`; otherwise apply every pending PI's outcome (they run in
parallel; `Promise.allSettled` catches per-PI failures) and re-arm the
alarm. -/
def processPhase (st : DOStorage) (b : BatchRow) (env : DOEnv)
    (outcomes : String → ProcessOutcome) : DOStorage × Option Nat :=
  let pendingRows := st.piStates.filter fun p =>
    p.status = .pending ∨ p.status = .fetching
  if pendingRows.length = 0 then
    ({ st with batch := some { b with phase := .PUBLISHING } },
      some env.alarmIntervalMs)
  else
    (pendingRows.foldl (fun s p => applyProcessOutcome env s p (outcomes p.pi))
      st, some env.alarmIntervalMs)

/-- What `publishOnePI` can do for the single PI handled per tick. -/
inductive PublishOutcome where
  | published (groups : List GroupEntityRow) (newTip : String) (newVer : Nat)
      (ungrouped : List String)
  | failed (msg : String)
deriving DecidableEq, Repr

/-- Embeds `publishPhase`: one PI at a time among those `publishing` with an
organize result and no `new_parent_tip`; none left means `CALLBACK`. -/
def publishPhase (st : DOStorage) (b : BatchRow) (env : DOEnv)
    (outcomes : String → PublishOutcome) : DOStorage × Option Nat :=
  let toPublish := st.piStates.filter fun p =>
    p.status = .publishing ∧ p.new_parent_tip = none ∧
      st.organizeResults.any fun r => r.1 = p.pi
  match toPublish with
  | [] =>
    ({ st with batch := some { b with phase := .CALLBACK } },
      some env.alarmIntervalMs)
  | p :: _ =>
    match outcomes p.pi with
    | .published groups newTip newVer ungrouped =>
      let st1 := { st with groupEntities := st.groupEntities ++ groups }
      let st2 := updatePI st1 p.pi fun q =>
        { q with
          status := .done
          new_parent_tip := some newTip
          new_parent_version := some newVer
          ungrouped_files := some ungrouped }
      (st2, some env.alarmIntervalMs)
    | .failed msg =>
      let st2 := updatePI st p.pi fun q =>
        { q with
          status := .error
          error := some ("Publish failed: " ++ msg) }
      (st2, some env.alarmIntervalMs)

/-- Embeds `callbackPhase`: the payload is sent to the orchestrator;
`deliveryOk` tells whether the POST returned 2xx (a non-2xx and a thrown
exception take the same catch).  On success: `DONE`, re-arm (the next alarm
cleans up).  On failure: increment `callback_retry_count`; at
`MAX_CALLBACK_RETRIES` force `DONE`, else re-arm with exponential backoff
`1000 * 2 ^ retryCount`. -/
def callbackPhase (st : DOStorage) (b : BatchRow) (env : DOEnv)
    (deliveryOk : Bool) : DOStorage × Option Nat :=
  if deliveryOk then
    let b1 := { b with phase := .DONE, completed_at := some "completed" }
    ({ st with batch := some b1 }, some env.alarmIntervalMs)
  else
    let retryCount := b.callback_retry_count + 1
    if env.maxCallbackRetries ≤ retryCount then
      let b1 :=
        { b with
          phase := .DONE
          completed_at := some "completed"
          callback_retry_count := retryCount }
      ({ st with batch := some b1 }, some env.alarmIntervalMs)
    else
      let b1 := { b with callback_retry_count := retryCount }
      ({ st with batch := some b1 }, some (1000 * 2 ^ retryCount))

/-- The catch block of `alarm`: set `global_error`, force the phase to
`CALLBACK`, re-arm. -/
def setErrorAndCallback (st : DOStorage) (msg : String) : DOStorage :=
  { st with batch := st.batch.map fun b =>
      { b with
        phase := .CALLBACK
        global_error := some msg } }

/-- The external I/O consumed by one alarm tick.  `thrown = some (st1, msg)`
means a runtime exception escaped the phase handler after the handler had
mutated the storage to `st1`. -/
structure AlarmIO where
  processOutcomes : String → ProcessOutcome
  publishOutcomes : String → PublishOutcome
  callbackOk : Bool
  thrown : Option (DOStorage × String)

/-- Embeds `alarm`: return early when no batch row exists; dispatch on the
phase inside a try/catch whose catch sets `global_error`, forces the phase
to `CALLBACK` and re-arms the alarm. -/
def alarm (st : DOStorage) (env : DOEnv) (io : AlarmIO) :
    DOStorage × Option Nat :=
  match st.batch with
  | none => (st, none)
  | some b =>
    match io.thrown with
    | some (stThrow, msg) =>
      (setErrorAndCallback stThrow msg, some env.alarmIntervalMs)
    | none =>
      match b.phase with
      | .PENDING =>
        ({ st with batch := some { b with phase := .PROCESSING } },
          some env.alarmIntervalMs)
      | .PROCESSING => processPhase st b env io.processOutcomes
      | .PUBLISHING => publishPhase st b env io.publishOutcomes
      | .CALLBACK => callbackPhase st b env io.callbackOk
      | .DONE => (cleanup st, none)
      | .ERROR => (cleanup st, none)

/-- A group entity as it appears in a callback result entry. -/
structure CallbackGroupEntity where
  group_name : String
  pi : String
  files : List String
  description : String
deriving DecidableEq, Repr

structure CallbackResultEntry where
  pi : String
  status : String
  new_tip : Option String
  new_version : Option Nat
  error : Option String
  group_entities : Option (List CallbackGroupEntity)
deriving DecidableEq, Repr

structure PINodeConfig where
  ocr : Bool
  reorganize : Bool
  pinax : Bool
  cheimarros : Bool
  describe : Bool
deriving DecidableEq, Repr

structure PINode where
  pi : String
  parent_pi : String
  children_pi : List String
  processing_config : PINodeConfig
deriving DecidableEq, Repr

structure CallbackSummary where
  total : Nat
  succeeded : Nat
  failed : Nat
  processing_time_ms : Nat
deriving DecidableEq, Repr

structure OrganizerCallbackPayload where
  batch_id : String
  chunk_id : String
  status : String
  results : List CallbackResultEntry
  new_pis : Option (List PINode)
  summary : CallbackSummary
  error : Option String
deriving DecidableEq, Repr

/-- Embeds `buildCallbackPayload`: per-PI result entries with their group
entities, the `new_pis` of all created groups with the fixed processing
config, the success/partial/error batch status from the counts of `done`
and `error` PIs, and `global_error` in the `error` field.
`processingTimeMs` stands for `Date.now() - started_at`. -/
def buildCallbackPayload (b : BatchRow) (piStates : List PIRow)
    (groupEntities : List GroupEntityRow) (processingTimeMs : Nat) :
    OrganizerCallbackPayload :=
  let succeeded := piStates.filter fun p => p.status = .done
  let failed := piStates.filter fun p => p.status = .error
  let results := piStates.map fun p =>
    let groupRows := groupEntities.filter fun g => g.pi = p.pi
    { pi := p.pi
      status := if p.status = .done then "success" else "error"
      new_tip := p.new_parent_tip
      new_version := p.new_parent_version
      error := p.error
      group_entities :=
        if 0 < groupRows.length then
          some (groupRows.map fun g =>
            { group_name := g.group_name, pi := g.group_pi,
              files := g.files, description := g.description })
        else none }
  let newPIs := piStates.flatMap fun p =>
    (groupEntities.filter fun g => g.pi = p.pi).map fun g =>
      { pi := g.group_pi
        parent_pi := p.pi
        children_pi := []
        processing_config :=
          { ocr := false, reorganize := false, pinax := true,
            cheimarros := true, describe := true } }
  { batch_id := b.batch_id
    chunk_id := b.chunk_id
    status :=
      if failed.length = 0 then "success"
      else if succeeded.length = 0 then "error"
      else "partial"
    results := results
    new_pis := if 0 < newPIs.length then some newPIs else none
    summary :=
      { total := piStates.length, succeeded := succeeded.length,
        failed := failed.length, processing_time_ms := processingTimeMs }
    error := b.global_error }

/-- C8: in the CALLBACK phase, a failed delivery increments
`callback_retry_count`; below `MAX_CALLBACK_RETRIES` the batch stays put and
the alarm is re-armed with exponential backoff `1000 * 2 ^ retryCount`, and
at `MAX_CALLBACK_RETRIES` the batch force-transitions to `DONE`; and a batch
whose phase is `DONE` has all of its persisted state deleted on the next
alarm. -/
theorem callbackPhase_retry_until_done_and_cleanup
    (st st2 : DOStorage) (b b2 : BatchRow) (env : DOEnv) (io io2 : AlarmIO)
    (hb : st.batch = some b) (hph : b.phase = .CALLBACK)
    (hfail : io.callbackOk = false) (hth : io.thrown = none)
    (hb2 : st2.batch = some b2) (hph2 : b2.phase = .DONE)
    (hth2 : io2.thrown = none) :
    (alarm st env io =
      if env.maxCallbackRetries ≤ b.callback_retry_count + 1 then
        ({ st with batch := some { b with phase := .DONE, completed_at := some "completed", callback_retry_count := b.callback_retry_count + 1 } }, some env.alarmIntervalMs)
      else
        ({ st with batch := some { b with callback_retry_count := b.callback_retry_count + 1 } }, some (1000 * 2 ^ (b.callback_retry_count + 1)))) ∧
    alarm st2 env io2 = (emptyStorage, none) := by
  constructor
  · have h1 : alarm st env io = callbackPhase st b env io.callbackOk := by
      rw [alarm.eq_def]
      simp only [hb, hth, hph]
    rw [h1, callbackPhase, hfail]
    simp only [Bool.false_eq_true, if_false]
  · rw [alarm.eq_def]
    simp only [hb2, hth2, hph2]
    rfl

/-- Witness for C8 at two concrete states: a CALLBACK batch whose delivery
fails (below the retry limit, so the backoff branch is taken) and a DONE
batch that gets cleaned up. -/
theorem callbackPhase_retry_until_done_and_cleanup_witness :
    (alarm
        ⟨some ⟨"B", "0", none, .CALLBACK, none, 0, none⟩, [], [], [], [], []⟩
        ⟨3, 3, 100⟩
        ⟨fun _ => .failed "x", fun _ => .failed "x", false, none⟩ =
      if (3 : Nat) ≤ 0 + 1 then
        (⟨some ⟨"B", "0", none, .DONE, some "completed", 0 + 1, none⟩,
            [], [], [], [], []⟩, some 100)
      else
        (⟨some ⟨"B", "0", none, .CALLBACK, none, 0 + 1, none⟩,
            [], [], [], [], []⟩, some (1000 * 2 ^ (0 + 1)))) ∧
    alarm
        ⟨some ⟨"B", "1", none, .DONE, some "completed", 1, none⟩,
          [], [], [], [], []⟩
        ⟨3, 3, 100⟩
        ⟨fun _ => .failed "x", fun _ => .failed "x", true, none⟩ =
      (emptyStorage, none) :=
  callbackPhase_retry_until_done_and_cleanup
    ⟨some ⟨"B", "0", none, .CALLBACK, none, 0, none⟩, [], [], [], [], []⟩
    ⟨some ⟨"B", "1", none, .DONE, some "completed", 1, none⟩,
      [], [], [], [], []⟩
    ⟨"B", "0", none, .CALLBACK, none, 0, none⟩
    ⟨"B", "1", none, .DONE, some "completed", 1, none⟩
    ⟨3, 3, 100⟩
    ⟨fun _ => .failed "x", fun _ => .failed "x", false, none⟩
    ⟨fun _ => .failed "x", fun _ => .failed "x", true, none⟩
    rfl rfl rfl rfl rfl rfl rfl

/-- C9: for a nonempty batch whose PIs all reached a terminal status, the
callback payload's status is `error` when every PI failed, `partial` when
some failed and some succeeded, and `success` when none failed. -/
theorem buildCallbackPayload_status_classification
    (b : BatchRow) (pis : List PIRow) (ges : List GroupEntityRow) (tms : Nat)
    (hne : pis ≠ [])
    (hterm : ∀ p ∈ pis, p.status = .done ∨ p.status = .error) :
    ((∀ p ∈ pis, p.status = .error) →
      (buildCallbackPayload b pis ges tms).status = "error") ∧
    (((∃ p ∈ pis, p.status = .error) ∧ (∃ p ∈ pis, p.status = .done)) →
      (buildCallbackPayload b pis ges tms).status = "partial") ∧
    ((∀ p ∈ pis, p.status ≠ .error) →
      (buildCallbackPayload b pis ges tms).status = "success") := by
  rw [buildCallbackPayload]
  dsimp only
  refine ⟨?_, ?_, ?_⟩
  · intro hall
    obtain ⟨p0, hp0⟩ := List.exists_mem_of_ne_nil pis hne
    have hfne : (pis.filter fun p => p.status = .error).length ≠ 0 := by
      have : p0 ∈ pis.filter fun p => p.status = .error :=
        List.mem_filter.mpr ⟨hp0, by simp [hall p0 hp0]⟩
      exact Nat.pos_iff_ne_zero.mp (List.length_pos_of_mem this)
    have hsnil : (pis.filter fun p => p.status = .done) = [] := by
      refine List.filter_eq_nil_iff.mpr ?_
      intro p hp
      simp [hall p hp]
    rw [if_neg hfne, hsnil]
    rfl
  · rintro ⟨⟨pe, hpe, hpee⟩, ⟨pd, hpd, hpdd⟩⟩
    have hfne : (pis.filter fun p => p.status = .error).length ≠ 0 :=
      Nat.pos_iff_ne_zero.mp (List.length_pos_of_mem
        (List.mem_filter.mpr ⟨hpe, by simp [hpee]⟩))
    have hsne : (pis.filter fun p => p.status = .done).length ≠ 0 :=
      Nat.pos_iff_ne_zero.mp (List.length_pos_of_mem
        (List.mem_filter.mpr ⟨hpd, by simp [hpdd]⟩))
    rw [if_neg hfne, if_neg hsne]
  · intro hnone
    have hfnil : (pis.filter fun p => p.status = .error) = [] := by
      refine List.filter_eq_nil_iff.mpr ?_
      intro p hp
      simp [hnone p hp]
    rw [hfnil]
    rfl

/-- Witness for C9 at a concrete two-PI batch with one success and one
failure (the partial case). -/
theorem buildCallbackPayload_status_classification_witness :
    ((∀ p ∈ [(⟨"p1", .done, 0, none, none, [], none, none, none, none⟩ :
          PIRow),
        ⟨"p2", .error, 1, none, none, [], none, none, none, some "boom"⟩],
      p.status = .error) →
      (buildCallbackPayload ⟨"B", "0", none, .CALLBACK, none, 0, none⟩
        [⟨"p1", .done, 0, none, none, [], none, none, none, none⟩,
          ⟨"p2", .error, 1, none, none, [], none, none, none, some "boom"⟩]
        [] 5).status = "error") ∧
    (((∃ p ∈ [(⟨"p1", .done, 0, none, none, [], none, none, none, none⟩ :
          PIRow),
        ⟨"p2", .error, 1, none, none, [], none, none, none, some "boom"⟩],
      p.status = .error) ∧
      (∃ p ∈ [(⟨"p1", .done, 0, none, none, [], none, none, none, none⟩ :
          PIRow),
        ⟨"p2", .error, 1, none, none, [], none, none, none, some "boom"⟩],
      p.status = .done)) →
      (buildCallbackPayload ⟨"B", "0", none, .CALLBACK, none, 0, none⟩
        [⟨"p1", .done, 0, none, none, [], none, none, none, none⟩,
          ⟨"p2", .error, 1, none, none, [], none, none, none, some "boom"⟩]
        [] 5).status = "partial") ∧
    ((∀ p ∈ [(⟨"p1", .done, 0, none, none, [], none, none, none, none⟩ :
          PIRow),
        ⟨"p2", .error, 1, none, none, [], none, none, none, some "boom"⟩],
      p.status ≠ .error) →
      (buildCallbackPayload ⟨"B", "0", none, .CALLBACK, none, 0, none⟩
        [⟨"p1", .done, 0, none, none, [], none, none, none, none⟩,
          ⟨"p2", .error, 1, none, none, [], none, none, none, some "boom"⟩]
        [] 5).status = "success") :=
  buildCallbackPayload_status_classification
    ⟨"B", "0", none, .CALLBACK, none, 0, none⟩
    [⟨"p1", .done, 0, none, none, [], none, none, none, none⟩,
      ⟨"p2", .error, 1, none, none, [], none, none, none, some "boom"⟩]
    [] 5 (by decide) (by decide)

/-- C10: an exception escaping a phase handler during an alarm makes the
catch block set `global_error` to the message and force the phase to
`CALLBACK` (re-arming the alarm), whatever phase the batch was in, and
`buildCallbackPayload` then carries that message in the payload's `error`
field. -/
theorem alarm_exception_sets_error_and_callback
    (st stThrow : DOStorage) (b pb : BatchRow) (env : DOEnv) (io : AlarmIO)
    (msg : String)
    (hb : st.batch = some b) (hth : io.thrown = some (stThrow, msg))
    (hpb : stThrow.batch = some pb) :
    (alarm st env io).1.batch = some
      { pb with phase := .CALLBACK, global_error := some msg } ∧
    (alarm st env io).2 = some env.alarmIntervalMs ∧
    ∀ (pis : List PIRow) (ges : List GroupEntityRow) (tms : Nat),
      (buildCallbackPayload
        { pb with phase := .CALLBACK, global_error := some msg }
        pis ges tms).error = some msg := by
  have h1 : alarm st env io =
      (setErrorAndCallback stThrow msg, some env.alarmIntervalMs) := by
    rw [alarm.eq_def, hb, hth]
  refine ⟨?_, ?_, ?_⟩
  · rw [h1]
    show (setErrorAndCallback stThrow msg).batch = _
    rw [setErrorAndCallback, hpb]
    rfl
  · rw [h1]
  · intro pis ges tms
    rfl

/-- Witness for C10: a PROCESSING batch whose handler throws `boom`. -/
theorem alarm_exception_sets_error_and_callback_witness :
    (alarm
        ⟨some ⟨"B", "0", none, .PROCESSING, none, 0, none⟩,
          [], [], [], [], []⟩
        ⟨3, 3, 100⟩
        ⟨fun _ => .failed "x", fun _ => .failed "x", true,
          some (⟨some ⟨"B", "0", none, .PROCESSING, none, 0, none⟩,
            [], [], [], [], []⟩, "boom")⟩).1.batch = some
      { (⟨"B", "0", none, .PROCESSING, none, 0, none⟩ : BatchRow) with
        phase := .CALLBACK
        global_error := some "boom" } ∧
    (alarm
        ⟨some ⟨"B", "0", none, .PROCESSING, none, 0, none⟩,
          [], [], [], [], []⟩
        ⟨3, 3, 100⟩
        ⟨fun _ => .failed "x", fun _ => .failed "x", true,
          some (⟨some ⟨"B", "0", none, .PROCESSING, none, 0, none⟩,
            [], [], [], [], []⟩, "boom")⟩).2 = some 100 ∧
    ∀ (pis : List PIRow) (ges : List GroupEntityRow) (tms : Nat),
      (buildCallbackPayload
        { (⟨"B", "0", none, .PROCESSING, none, 0, none⟩ : BatchRow) with
          phase := .CALLBACK
          global_error := some "boom" }
        pis ges tms).error = some "boom" :=
  alarm_exception_sets_error_and_callback
    ⟨some ⟨"B", "0", none, .PROCESSING, none, 0, none⟩, [], [], [], [], []⟩
    ⟨some ⟨"B", "0", none, .PROCESSING, none, 0, none⟩, [], [], [], [], []⟩
    ⟨"B", "0", none, .PROCESSING, none, 0, none⟩
    ⟨"B", "0", none, .PROCESSING, none, 0, none⟩
    ⟨3, 3, 100⟩
    ⟨fun _ => .failed "x", fun _ => .failed "x", true,
      some (⟨some ⟨"B", "0", none, .PROCESSING, none, 0, none⟩,
        [], [], [], [], []⟩, "boom")⟩
    "boom" rfl rfl rfl

end ArkeOrganizer
